import Mathlib

/-!
# BENSCHILLIBOWL: the bounded order queue

A verification development for `BENSCHILLIBOWL/BENSCHILLIBOWL.c` and its driver
`BENSCHILLIBOWL/main.c`.

The restaurant is a bounded FIFO of `Order` nodes chained through their `next`
pointers.  The embedding keeps the pointer structure: `Order` nodes live in a
memory indexed by address, `bcb->orders` is the address of the first node (or
NULL), and `AddOrderToBack` walks the chain exactly as the C loop does.

The header `BENSCHILLIBOWL.h` is not among the sources; the two record types
below list the fields the `.c` files read and write, with the types those
uses force (`int` counters, `Order*` links).

`int` arithmetic is modelled on `Int` with an explicit reduction into the
32-bit two's-complement range after every `++` and `--`.

The mutex and the two condition variables are not state of the sequential
model.  A call that would sleep in `pthread_cond_wait` is reported as
`Result.blocks` and leaves the state as it is; in an interleaving of whole
calls that call simply is not taken at that point.

The tail walk of `AddOrderToBack` does not end on a chain that loops, so the
functions that contain it take a step budget `fuel`; on the chains that runs
from a freshly opened restaurant build, a budget equal to the capacity is
enough (`step_add_completes`).

`AddOrder` links the caller's node into the chain, so a node belongs to the
queue from the call that submits it to the call that fetches it.  The results
about the chain are for runs in which no caller hands in a node that is still
linked (`Run.relinked`); `main.c` allocates a new node for every order, and
`fresh_nodes_never_relinked` covers that case.

Two further models sit beside the sequential one.  For the lock discipline the
operations are unfolded into their lock calls and field accesses in program
order (`AddOrder_events`, `GetOrder_events`, `CloseRestaurant_events`).  For
the bank account of `psdd.c`, `psdd_ec.c` and `shm_processes.c` each critical
section is a step on `BankAccount` (`dear_old_dad_loop`, `lovable_mom_loop`,
`poor_student_loop`).
-/

namespace BensChilliBowl

/-! ## Machine integers -/

/-- Largest value of a C `int` (32 bits). -/
def INT_MAX : Int := 2147483647

/-- Smallest value of a C `int` (32 bits). -/
def INT_MIN : Int := -2147483648

/-- Reduce an integer into the two's-complement range of a 32-bit `int`. -/
def wrapInt (x : Int) : Int := (x + 2147483648) % 4294967296 - 2147483648

/-! ## Data model -/

/-- Modelled from the spec: `struct Order` is declared in `BENSCHILLIBOWL.h`,
which is not among the sources.  The fields are the four that
`BENSCHILLIBOWL.c` and `main.c` read and write, matching the spec's Order
(menu item, customer identifier, sequence number, intrusive link).  `next` is
the address of the next node of the chain, `none` for NULL; `menu_item` is the
`MenuItem` string. -/
structure Order where
  menu_item : String
  customer_id : Int
  order_number : Int
  next : Option Nat
  deriving DecidableEq, Repr

/-- Modelled from the spec: `struct BENSCHILLIBOWL` is declared in
`BENSCHILLIBOWL.h`, which is not among the sources.  The fields are the six
that `BENSCHILLIBOWL.c` reads and writes besides the mutex and the two
condition variables, matching the spec's Queue (pending, size, capacity,
nextSequenceNumber, handledCount, expectedTotal).  `orders` is the head
pointer of the chain; the counters are `int`. -/
structure BENSCHILLIBOWL where
  orders : Option Nat
  current_size : Int
  max_size : Int
  next_order_number : Int
  orders_handled : Int
  expected_num_orders : Int
  deriving DecidableEq, Repr

/-- The `Order` nodes that exist, by address, each address listed once. -/
abbrev Memory := List (Nat × Order)

/-- Read the node at address `p`; `none` when no node lives there. -/
def load : Memory → Nat → Option Order
  | [], _ => none
  | (q, o) :: rest, p => if p = q then some o else load rest p

/-- Write node `o` at address `p`, replacing what was there. -/
def store (mem : Memory) (p : Nat) (o : Order) : Memory :=
  (p, o) :: mem.filter (fun e => e.1 != p)

/-- Program state seen by the queue operations: the restaurant record that
`bcb` points to, and the memory holding the `Order` nodes. -/
structure World where
  bcb : BENSCHILLIBOWL
  mem : Memory
  deriving DecidableEq, Repr

/-- How a call ends.  `returns a`: it returns, `a` holding the returned value
and the state it leaves.  `blocks`: it sleeps in `pthread_cond_wait`.
`fault`: it dereferences NULL or an address that holds no node.  `timeout`:
its loop was still running when the step budget ran out. -/
inductive Result (α : Type) where
  | returns (a : α)
  | blocks
  | fault
  | timeout
  deriving DecidableEq, Repr

/-! ## The operations of BENSCHILLIBOWL.c -/

/-- `OpenRestaurant`.  `calloc_ok` says whether `calloc` returned a block; when
it did not, the function returns NULL (`none`).  Seeding the random number
generator and printing do not touch the record. -/
def OpenRestaurant (calloc_ok : Bool) (max_size expected_num_orders : Int) :
    Option BENSCHILLIBOWL :=
  if !calloc_ok then none
  else some
    { orders := none
      current_size := 0
      max_size := max_size
      next_order_number := 1
      orders_handled := 0
      expected_num_orders := expected_num_orders }

/-- `IsEmpty`. -/
def IsEmpty (bcb : BENSCHILLIBOWL) : Bool := bcb.current_size == 0

/-- `IsFull`. -/
def IsFull (bcb : BENSCHILLIBOWL) : Bool := decide (bcb.current_size ≥ bcb.max_size)

/-- Outcome of `CloseRestaurant`: the two assertions hold and the restaurant is
torn down, or an assertion fails and the process aborts. -/
inductive CloseResult where
  | closed
  | aborted
  deriving DecidableEq, Repr

/-- `CloseRestaurant`: `assert(current_size == 0)`, then
`assert(orders_handled == expected_num_orders)`, then release everything. -/
def CloseRestaurant (bcb : BENSCHILLIBOWL) : CloseResult :=
  if bcb.current_size != 0 then .aborted
  else if bcb.orders_handled != bcb.expected_num_orders then .aborted
  else .closed

/-- The loop `while (p->next) p = p->next;` of `AddOrderToBack`, started at
node `p`: the address of the node whose `next` is NULL.  `fuel` bounds the
number of nodes visited. -/
def lastNode (mem : Memory) : Nat → Nat → Result Nat
  | 0, _ => .timeout
  | fuel + 1, p =>
    match load mem p with
    | none => .fault
    | some o =>
      match o.next with
      | none => .returns p
      | some q => lastNode mem fuel q

/-- `AddOrderToBack(&bcb->orders, order)`: the new head pointer and the new
memory.  An empty chain gets `order` as its head; otherwise the last node of
the chain gets `order` as its `next`. -/
def AddOrderToBack (fuel : Nat) (mem : Memory) (orders : Option Nat) (order : Nat) :
    Result (Option Nat × Memory) :=
  match orders with
  | none => .returns (some order, mem)
  | some head =>
    match lastNode mem fuel head with
    | .returns p =>
      match load mem p with
      | none => .fault
      | some o => .returns (some head, store mem p { o with next := some order })
    | .blocks => .blocks
    | .fault => .fault
    | .timeout => .timeout

/-- `AddOrder(bcb, order)`: the order number it returns and the state it
leaves.  It waits while the restaurant is full.  Otherwise it stamps the node
with `next_order_number++`, clears its link, appends it to the chain, counts
it, and returns `order->order_number` as read back from the node. -/
def AddOrder (fuel : Nat) (w : World) (order : Nat) : Result (Int × World) :=
  if IsFull w.bcb then .blocks
  else
    match load w.mem order with
    | none => .fault
    | some o =>
      let mem1 := store w.mem order
        { o with order_number := w.bcb.next_order_number, next := none }
      let next_order_number := wrapInt (w.bcb.next_order_number + 1)
      match AddOrderToBack fuel mem1 w.bcb.orders order with
      | .returns (orders, mem2) =>
        match load mem2 order with
        | none => .fault
        | some o2 =>
          .returns (o2.order_number,
            { bcb :=
                { w.bcb with
                  orders := orders
                  next_order_number := next_order_number
                  current_size := wrapInt (w.bcb.current_size + 1) }
              mem := mem2 })
      | .blocks => .blocks
      | .fault => .fault
      | .timeout => .timeout

/-- `GetOrder(bcb)`: the pointer it returns (`none` is NULL, the "done"
answer) and the state it leaves.  It waits while the restaurant is empty and
fewer than `expected_num_orders` orders have been handled.  When the
restaurant is empty and all expected orders are handled it returns NULL.
Otherwise it unlinks the first node, and counts it. -/
def GetOrder (w : World) : Result (Option Nat × World) :=
  if IsEmpty w.bcb && decide (w.bcb.orders_handled < w.bcb.expected_num_orders) then
    .blocks
  else if IsEmpty w.bcb && decide (w.bcb.orders_handled ≥ w.bcb.expected_num_orders) then
    .returns (none, w)
  else
    match w.bcb.orders with
    | none => .fault
    | some front =>
      match load w.mem front with
      | none => .fault
      | some o =>
        .returns (some front,
          { w with
            bcb :=
              { w.bcb with
                orders := o.next
                current_size := wrapInt (w.bcb.current_size - 1)
                orders_handled := wrapInt (w.bcb.orders_handled + 1) } })

/-! ## Sequential runs -/

/-- What a client sees of an order: where the node lives and the three fields
that are not the link. -/
structure Ticket where
  addr : Nat
  menu_item : String
  customer_id : Int
  order_number : Int
  deriving DecidableEq, Repr

/-- The ticket of the node `o` at address `p`. -/
def ticket (p : Nat) (o : Order) : Ticket :=
  ⟨p, o.menu_item, o.customer_id, o.order_number⟩

/-- The pending orders: the tickets of the nodes of the chain that starts at
`head`, read by following `next` until NULL, at most `n` of them. -/
def pending (mem : Memory) : Nat → Option Nat → List Ticket
  | 0, _ => []
  | _ + 1, none => []
  | n + 1, some p =>
    match load mem p with
    | none => []
    | some o => ticket p o :: pending mem n o.next

/-- One call made by a client thread.  `add p o`: a customer holds a node at
address `p` with contents `o` and calls `AddOrder(bcb, p)`.  `get`: a cook
calls `GetOrder(bcb)`. -/
inductive Call where
  | add (p : Nat) (o : Order)
  | get
  deriving DecidableEq, Repr

/-- A run in progress: the program state and a record of what the calls made
so far have seen.  `submitted`: the ticket of every node `AddOrder` accepted,
read when the call returned, in call order.  `numbers`: the values `AddOrder`
returned, in call order.  `fetched`: the ticket of every node `GetOrder`
returned, in call order.  `relinked`: whether some `AddOrder` call was handed
a node that was still linked in the chain. -/
structure Run where
  w : World
  submitted : List Ticket
  numbers : List Int
  fetched : List Ticket
  relinked : Bool
  deriving DecidableEq, Repr

/-- The run that has just opened restaurant `bcb` over memory `mem`. -/
def Run.start (bcb : BENSCHILLIBOWL) (mem : Memory) : Run :=
  { w := ⟨bcb, mem⟩, submitted := [], numbers := [], fetched := [], relinked := false }

/-- Why a sequence of calls cannot be run one call after the other to its
end: a call blocks, or a call does not return. -/
inductive Halt where
  | blocked
  | crashed
  deriving DecidableEq, Repr

/-- Run one call to completion and record what it saw.  For `add p o` the
customer's node `o` is written at `p` and `AddOrder` is called on it; the run
notes whether `p` was among the nodes linked in the queue when the call was
made.  A call that blocks, faults or exceeds the step budget ends the run. -/
def step (fuel : Nat) (r : Run) : Call → Except Halt Run
  | .add p o =>
    match AddOrder fuel ⟨r.w.bcb, store r.w.mem p o⟩ p with
    | .returns (n, w2) =>
      match load w2.mem p with
      | none => .error .crashed
      | some o2 =>
        .ok { w := w2
              submitted := r.submitted ++ [ticket p o2]
              numbers := r.numbers ++ [n]
              fetched := r.fetched
              relinked :=
                r.relinked ||
                  decide (p ∈ (pending r.w.mem fuel r.w.bcb.orders).map Ticket.addr) }
    | .blocks => .error .blocked
    | _ => .error .crashed
  | .get =>
    match GetOrder r.w with
    | .returns (none, w2) => .ok { r with w := w2 }
    | .returns (some front, w2) =>
      match load w2.mem front with
      | none => .error .crashed
      | some o => .ok { r with w := w2, fetched := r.fetched ++ [ticket front o] }
    | .blocks => .error .blocked
    | _ => .error .crashed

/-- Whether a call is an `AddOrder` call. -/
def Call.isAdd : Call → Bool
  | .add _ _ => true
  | .get => false

/-- The addresses of the nodes a sequence of calls hands to `AddOrder`. -/
def addedNodes : List Call → List Nat
  | [] => []
  | .add p _ :: cs => p :: addedNodes cs
  | .get :: cs => addedNodes cs

/-- Run a sequence of calls one after the other. -/
def exec (fuel : Nat) : List Call → Run → Except Halt Run
  | [], r => .ok r
  | c :: cs, r =>
    match step fuel r c with
    | .ok r2 => exec fuel cs r2
    | .error e => .error e

/-! ## Scenario A of the specification

Capacity 2, expected total 3.  Two customers submit A and B, a cook fetches,
a customer submits C, cooks fetch three more times. -/

/-- The node a customer prepares for order A. -/
def orderA : Order := ⟨"BensChilli", 1, 0, none⟩

/-- The node a customer prepares for order B. -/
def orderB : Order := ⟨"BensShake", 2, 0, none⟩

/-- The node a customer prepares for order C. -/
def orderC : Order := ⟨"BensCake", 1, 0, none⟩

/-- The restaurant `OpenRestaurant(2, 3)` returns. -/
def openedA : BENSCHILLIBOWL := ⟨none, 0, 2, 1, 0, 3⟩

/-- The calls of scenario A, nodes at addresses 10, 20 and 30. -/
def callsA : List Call :=
  [.add 10 orderA, .add 20 orderB, .get, .add 30 orderC, .get, .get, .get]

/-- The run scenario A ends in. -/
def finalA : Run :=
  ⟨⟨⟨none, 0, 2, 4, 3, 3⟩,
      [(20, ⟨"BensShake", 2, 2, some 30⟩), (30, ⟨"BensCake", 1, 3, none⟩),
        (10, ⟨"BensChilli", 1, 1, some 20⟩)]⟩,
    [⟨10, "BensChilli", 1, 1⟩, ⟨20, "BensShake", 2, 2⟩, ⟨30, "BensCake", 1, 3⟩],
    [1, 2, 3],
    [⟨10, "BensChilli", 1, 1⟩, ⟨20, "BensShake", 2, 2⟩, ⟨30, "BensCake", 1, 3⟩],
    false⟩

/-- Scenario A after its first three calls: A and B submitted, A fetched. -/
def midA : Run :=
  ⟨⟨⟨some 20, 1, 2, 3, 1, 3⟩,
      [(10, ⟨"BensChilli", 1, 1, some 20⟩), (20, ⟨"BensShake", 2, 2, none⟩)]⟩,
    [⟨10, "BensChilli", 1, 1⟩, ⟨20, "BensShake", 2, 2⟩],
    [1, 2],
    [⟨10, "BensChilli", 1, 1⟩],
    false⟩

/-! ## The driver's constants (main.c) -/

/-- `BENSCHILLIBOWL_SIZE`. -/
def BENSCHILLIBOWL_SIZE : Int := 100

/-- `NUM_CUSTOMERS`. -/
def NUM_CUSTOMERS : Int := 90

/-- `ORDERS_PER_CUSTOMER`. -/
def ORDERS_PER_CUSTOMER : Int := 3

/-- `EXPECTED_NUM_ORDERS`. -/
def EXPECTED_NUM_ORDERS : Int := NUM_CUSTOMERS * ORDERS_PER_CUSTOMER

/-! ## A run with more orders than expected

Capacity 5, expected total 0: a customer submits one order and a cook
fetches it. -/

/-- The restaurant `OpenRestaurant(5, 0)` returns. -/
def openedB : BENSCHILLIBOWL := ⟨none, 0, 5, 1, 0, 0⟩

/-- One submit, one fetch. -/
def callsB : List Call := [.add 10 orderA, .get]

/-- The run `callsB` ends in. -/
def finalB : Run :=
  ⟨⟨⟨none, 0, 5, 2, 1, 0⟩, [(10, ⟨"BensChilli", 1, 1, none⟩)]⟩,
    [⟨10, "BensChilli", 1, 1⟩], [1], [⟨10, "BensChilli", 1, 1⟩], false⟩

/-! ## A restaurant opened with a negative capacity -/

/-- The restaurant `OpenRestaurant(-1, 0)` returns. -/
def openedNeg : BENSCHILLIBOWL := ⟨none, 0, -1, 1, 0, 0⟩

/-- Scenario A with the third submit made before any fetch. -/
def callsFull : List Call := [.add 10 orderA, .add 20 orderB, .add 30 orderC]

/-! ## The bank account of psdd.c, psdd_ec.c and shm_processes.c

The three programs share one `int BankAccount`, set to 0 by `main`, and run
the loops below in separate processes.  Each pass through a loop reads and
writes `BankAccount` between `sem_wait(mutex)` and `sem_post(mutex)`; that
critical section is one step here.  The values `rand()` returns are inputs of
the step. -/

/-- `randi(lo, hi)` as in `psdd_ec.c` and `shm_processes.c`; `rnd` is what
`rand()` returns, a non-negative `int`. -/
def randi (lo hi : Int) (rnd : Nat) : Int :=
  let span := hi - lo + 1
  lo + (rnd : Int) % (if span > 0 then span else 1)

/-- `randi(lo, hi)` as in `psdd.c`, which divides by `span` unguarded. -/
def randi_psdd (lo hi : Int) (rnd : Nat) : Int :=
  let span := hi - lo + 1
  lo + (rnd : Int) % span

/-- One pass through the critical section of `dear_old_dad_loop`: the new
`BankAccount`.  `rnd_r` and `rnd_amount` are what the two `rand()` calls
return. -/
def dear_old_dad_loop (BankAccount : Int) (rnd_r rnd_amount : Nat) : Int :=
  let localBalance := BankAccount
  let r := randi 0 1 rnd_r
  if r = 0 then
    if localBalance < 100 then
      let amount := randi 0 100 rnd_amount
      if amount % 2 = 0 then wrapInt (localBalance + amount)
      else BankAccount
    else BankAccount
  else BankAccount

/-- One pass through the critical section of `lovable_mom_loop`: the new
`BankAccount`. -/
def lovable_mom_loop (BankAccount : Int) (rnd_amount : Nat) : Int :=
  let localBalance := BankAccount
  if localBalance ≤ 100 then
    let amount := randi 0 125 rnd_amount
    wrapInt (localBalance + amount)
  else BankAccount

/-- One pass through the critical section of `poor_student_loop`: the new
`BankAccount`. -/
def poor_student_loop (BankAccount : Int) (rnd_r rnd_need : Nat) : Int :=
  let localBalance := BankAccount
  let r := randi 0 1 rnd_r
  if r = 0 then
    let need := randi 0 50 rnd_need
    if need ≤ localBalance then wrapInt (localBalance - need)
    else BankAccount
  else BankAccount

/-- Whose critical section runs next, with the values its `rand()` calls
return. -/
inductive Turn where
  | dad (rnd_r rnd_amount : Nat)
  | mom (rnd_amount : Nat)
  | student (rnd_r rnd_need : Nat)
  deriving DecidableEq, Repr

/-- Whether a turn is Mom's. -/
def Turn.isMom : Turn → Bool
  | .mom _ => true
  | _ => false

/-- Run one critical section on `BankAccount`. -/
def bankStep (BankAccount : Int) : Turn → Int
  | .dad rnd_r rnd_amount => dear_old_dad_loop BankAccount rnd_r rnd_amount
  | .mom rnd_amount => lovable_mom_loop BankAccount rnd_amount
  | .student rnd_r rnd_need => poor_student_loop BankAccount rnd_r rnd_need

/-- Run critical sections one after the other. -/
def bankRun : List Turn → Int → Int
  | [], BankAccount => BankAccount
  | t :: ts, BankAccount => bankRun ts (bankStep BankAccount t)

/-- Dad deposits 100 into 98, Mom tops up 100 with 125, a student takes 50. -/
def turnsBank : List Turn :=
  [.dad 0 98, .dad 0 2, .mom 125, .student 0 50]

/-! ## Accesses to the shared state

For the lock discipline each operation of `BENSCHILLIBOWL.c` is unfolded into
what it does to `bcb->mutex` and the reads and writes of the restaurant record
and of `Order` nodes it performs, in program order, on the path it takes in a
given state.  Signals and broadcasts touch no field and are left out. -/

/-- A field of the restaurant record, or a field of the `Order` node at an
address. -/
inductive Loc where
  | orders
  | current_size
  | max_size
  | next_order_number
  | orders_handled
  | expected_num_orders
  | order_number (p : Nat)
  | next (p : Nat)
  deriving DecidableEq, Repr

/-- One thing a call does: `pthread_mutex_lock`, `pthread_mutex_unlock`,
`pthread_cond_wait` (which gives the mutex up while it sleeps), a read, a
write. -/
inductive Event where
  | lock
  | unlock
  | wait
  | read (l : Loc)
  | write (l : Loc)
  deriving DecidableEq, Repr

/-- The accesses of the loop and the final store of `AddOrderToBack`, from node
`p` on: one read of `p->next` per node visited, then the write of the last
node's `next`. -/
def walk_events (mem : Memory) : Nat → Nat → List Event
  | 0, _ => []
  | fuel + 1, p =>
    .read (.next p) ::
      match load mem p with
      | none => []
      | some o =>
        match o.next with
        | none => [.write (.next p)]
        | some q => walk_events mem fuel q

/-- The accesses of `AddOrderToBack(&bcb->orders, order)`. -/
def AddOrderToBack_events (fuel : Nat) (mem : Memory) (orders : Option Nat) : List Event :=
  .read .orders ::
    match orders with
    | none => [.write .orders]
    | some head => walk_events mem fuel head

/-- What `AddOrder(bcb, order)` does, line by line: lock, the `IsFull` test,
then either the wait, or the stamping of the node, the append, the count, the
unlock, and the read of `order->order_number` for the return value. -/
def AddOrder_events (fuel : Nat) (w : World) (order : Nat) : List Event :=
  [.lock, .read .current_size, .read .max_size] ++
    if IsFull w.bcb then [.wait]
    else
      match load w.mem order with
      | none => []
      | some o =>
        [.read .next_order_number, .write .next_order_number, .write (.order_number order),
          .write (.next order)] ++
        AddOrderToBack_events fuel
          (store w.mem order { o with order_number := w.bcb.next_order_number, next := none })
          w.bcb.orders ++
        [.read .current_size, .write .current_size, .unlock, .read (.order_number order)]

/-- The accesses of the test `IsEmpty(bcb) && orders_handled ... expected_num_orders`;
the right operand is read only when the restaurant is empty. -/
def empty_test_events (bcb : BENSCHILLIBOWL) : List Event :=
  .read .current_size ::
    if IsEmpty bcb then [.read .orders_handled, .read .expected_num_orders] else []

/-- What `GetOrder(bcb)` does, line by line: lock, the loop test, then either
the wait, or the second test followed by the unlock (done) or by the unlinking
of the first node, the two counts and the unlock. -/
def GetOrder_events (w : World) : List Event :=
  [.lock] ++ empty_test_events w.bcb ++
    if IsEmpty w.bcb && decide (w.bcb.orders_handled < w.bcb.expected_num_orders) then
      [.wait]
    else
      empty_test_events w.bcb ++
        if IsEmpty w.bcb && decide (w.bcb.orders_handled ≥ w.bcb.expected_num_orders) then
          [.unlock]
        else
          match w.bcb.orders with
          | none => [.read .orders]
          | some front =>
            [.read .orders, .read (.next front), .write .orders, .read .current_size,
              .write .current_size, .read .orders_handled, .write .orders_handled, .unlock]

/-- What `CloseRestaurant(bcb)` does to the counters: lock, the two assertions
(the second only when the first holds), unlock when both hold. -/
def CloseRestaurant_events (bcb : BENSCHILLIBOWL) : List Event :=
  [.lock, .read .current_size] ++
    if bcb.current_size != 0 then []
    else
      [.read .orders_handled, .read .expected_num_orders] ++
        if bcb.orders_handled != bcb.expected_num_orders then [] else [.unlock]

/-- The locations a call reads or writes while it does not hold the mutex.
`held` says whether it holds the mutex at the start. -/
def unguarded : Bool → List Event → List Loc
  | _, [] => []
  | _, .lock :: es => unguarded true es
  | _, .unlock :: es => unguarded false es
  | _, .wait :: es => unguarded false es
  | held, .read l :: es => if held then unguarded held es else l :: unguarded held es
  | held, .write l :: es => if held then unguarded held es else l :: unguarded held es

/-- The state after the first submit of scenario A. -/
def afterA : World :=
  ⟨⟨some 10, 1, 2, 2, 0, 3⟩, [(10, ⟨"BensChilli", 1, 1, none⟩)]⟩

/-! ## A node submitted twice

Capacity 3, expected total 3: a customer calls `AddOrder` on the node at
address 10 and, while that node is still linked in the queue, calls `AddOrder`
on it again.  The second call stamps the node with 2, finds it at the tail
and makes it its own successor. -/

/-- The restaurant `OpenRestaurant(3, 3)` returns. -/
def openedC : BENSCHILLIBOWL := ⟨none, 0, 3, 1, 0, 3⟩

/-- Two submits of the same node. -/
def callsTwice : List Call := [.add 10 orderA, .add 10 orderA]

/-- The run `callsTwice` ends in: `current_size` 2 over a one-node cycle. -/
def twiceA : Run :=
  ⟨⟨⟨some 10, 2, 3, 3, 0, 3⟩, [(10, ⟨"BensChilli", 1, 2, some 10⟩)]⟩,
    [⟨10, "BensChilli", 1, 1⟩, ⟨10, "BensChilli", 1, 2⟩], [1, 2], [], true⟩

/-- The run after `callsTwice` and one fetch. -/
def twiceFetched : Run :=
  ⟨⟨⟨some 10, 1, 3, 3, 1, 3⟩, [(10, ⟨"BensChilli", 1, 2, some 10⟩)]⟩,
    [⟨10, "BensChilli", 1, 1⟩, ⟨10, "BensChilli", 1, 2⟩], [1, 2],
    [⟨10, "BensChilli", 1, 2⟩], true⟩

/-- The run after `callsTwice` and two fetches: `current_size` is back to 0. -/
def twiceDrained : Run :=
  ⟨⟨⟨some 10, 0, 3, 3, 2, 3⟩, [(10, ⟨"BensChilli", 1, 2, some 10⟩)]⟩,
    [⟨10, "BensChilli", 1, 1⟩, ⟨10, "BensChilli", 1, 2⟩], [1, 2],
    [⟨10, "BensChilli", 1, 2⟩, ⟨10, "BensChilli", 1, 2⟩], true⟩

/-! ## Submitting and fetching one order, over and over -/

/-- The restaurant `OpenRestaurant(1, 0)` returns. -/
def openedOne : BENSCHILLIBOWL := ⟨none, 0, 1, 1, 0, 0⟩

/-- `n` rounds of one submit followed by one fetch, the node at address 10
being handed in again each time after it was fetched. -/
def pingPong : Nat → List Call
  | 0 => []
  | n + 1 => .add 10 orderA :: .get :: pingPong n

/-! ## The shape of the memory -/

/-- `Chain mem head ts`: following `next` from `head` visits exactly the nodes
with tickets `ts`, in this order, and then reaches NULL. -/
def Chain (mem : Memory) : Option Nat → List Ticket → Prop
  | head, [] => head = none
  | head, t :: ts =>
    ∃ o, head = some t.addr ∧ load mem t.addr = some o ∧ t = ticket t.addr o ∧
      Chain mem o.next ts

/-- What the counters of a run satisfy, for a restaurant opened with capacity
`C` and expected total `E`. -/
structure Counted (C E : Int) (r : Run) : Prop where
  max_eq : r.w.bcb.max_size = C
  expected_eq : r.w.bcb.expected_num_orders = E
  size_nonneg : 0 ≤ r.w.bcb.current_size
  size_le : r.w.bcb.current_size ≤ max C 0
  size_eq : r.w.bcb.current_size = (r.submitted.length : Int) - r.fetched.length
  next_eq : r.w.bcb.next_order_number = wrapInt ((r.submitted.length : Int) + 1)
  handled_eq : r.w.bcb.orders_handled = wrapInt (r.fetched.length : Int)
  numbers_eq : r.numbers = (List.range r.submitted.length).map (fun (i : Nat) => wrapInt ((i : Int) + 1))
  stamped : r.submitted.map Ticket.order_number = r.numbers

/-- What the memory of a run satisfies when no node was handed to `AddOrder`
while still linked: the chain from `bcb->orders` holds the tickets `ts`, no
node twice, and these are the submitted orders not fetched yet. -/
structure Linked (r : Run) (ts : List Ticket) : Prop where
  chain : Chain r.w.mem r.w.bcb.orders ts
  nodup : (ts.map Ticket.addr).Nodup
  fifo : r.fetched ++ ts = r.submitted

/-- What holds of every run from a freshly opened restaurant: the counter
facts, and the memory facts as long as no linked node was handed in again. -/
def Sound (C E : Int) (r : Run) : Prop :=
  Counted C E r ∧ (r.relinked = false → ∃ ts, Linked r ts)

/-! ## Machine arithmetic -/

theorem wrapInt_of_range (x : Int) (hlo : INT_MIN ≤ x) (hhi : x ≤ INT_MAX) :
    wrapInt x = x := by
  unfold wrapInt
  unfold INT_MIN at hlo
  unfold INT_MAX at hhi
  omega

theorem wrapInt_succ_wrapInt (x : Int) : wrapInt (wrapInt x + 1) = wrapInt (x + 1) := by
  unfold wrapInt
  omega

/-! ## Memory -/

theorem load_filter_ne (mem : Memory) (p q : Nat) (h : q ≠ p) :
    load (mem.filter (fun e => e.1 != p)) q = load mem q := by
  induction mem with
  | nil => rfl
  | cons e rest ih =>
    obtain ⟨a, o⟩ := e
    by_cases hap : a = p
    · subst hap
      simp [List.filter, load, h, ih]
    · have : (a != p) = true := by simpa using hap
      simp [List.filter, this, load, ih]

theorem load_store (mem : Memory) (p q : Nat) (o : Order) :
    load (store mem p o) q = if q = p then some o else load mem q := by
  unfold store
  by_cases h : q = p
  · simp [load, h]
  · simp [load, h, load_filter_ne mem p q h]

theorem load_store_same (mem : Memory) (p : Nat) (o : Order) :
    load (store mem p o) p = some o := by
  simp [load_store]

theorem load_store_other (mem : Memory) (p q : Nat) (o : Order) (h : q ≠ p) :
    load (store mem p o) q = load mem q := by
  simp [load_store, h]

/-! ## What one call does -/

theorem AddOrderToBack_ticket {fuel : Nat} {mem mem2 : Memory} {orders orders2 : Option Nat}
    {order : Nat} (h : AddOrderToBack fuel mem orders order = .returns (orders2, mem2))
    (q : Nat) : (load mem2 q).map (ticket q) = (load mem q).map (ticket q) := by
  unfold AddOrderToBack at h
  cases orders with
  | none =>
    simp only [Result.returns.injEq, Prod.mk.injEq] at h
    rw [← h.2]
  | some head =>
    simp only at h
    split at h
    · rename_i l hl
      split at h
      · exact absurd h (by simp)
      · rename_i o ho
        simp only [Result.returns.injEq, Prod.mk.injEq] at h
        rw [← h.2, load_store]
        by_cases hq : q = l
        · subst hq
          simp [ho, ticket]
        · simp [hq]
    all_goals exact absurd h (by simp)

theorem AddOrder_returns {fuel : Nat} {w w2 : World} {p : Nat} {n : Int}
    (h : AddOrder fuel w p = .returns (n, w2)) :
    IsFull w.bcb = false ∧ n = w.bcb.next_order_number ∧
    w2.bcb.current_size = wrapInt (w.bcb.current_size + 1) ∧
    w2.bcb.next_order_number = wrapInt (w.bcb.next_order_number + 1) ∧
    w2.bcb.orders_handled = w.bcb.orders_handled ∧
    w2.bcb.max_size = w.bcb.max_size ∧
    w2.bcb.expected_num_orders = w.bcb.expected_num_orders ∧
    ∃ o o2, load w.mem p = some o ∧ load w2.mem p = some o2 ∧
      ticket p o2 = ticket p { o with order_number := w.bcb.next_order_number } := by
  unfold AddOrder at h
  split at h
  · exact absurd h (by simp)
  · rename_i hfull
    split at h
    · exact absurd h (by simp)
    · rename_i o ho
      simp only at h
      split at h
      · rename_i orders2 mem2 hback
        split at h
        · exact absurd h (by simp)
        · rename_i o2 ho2
          simp only [Result.returns.injEq, Prod.mk.injEq] at h
          obtain ⟨hn, hw⟩ := h
          subst hw
          have ht := AddOrderToBack_ticket hback p
          rw [ho2, load_store_same] at ht
          simp only [Option.map, Option.some.injEq] at ht
          refine ⟨by simpa using hfull, ?_, rfl, rfl, rfl, rfl, rfl, o, o2, ho, ho2, ht⟩
          rw [← hn]
          have := congrArg Ticket.order_number ht
          simpa [ticket] using this
      all_goals exact absurd h (by simp)

theorem GetOrder_returns {w w2 : World} {a : Option Nat}
    (h : GetOrder w = .returns (a, w2)) :
    (a = none ∧ w2 = w ∧ w.bcb.current_size = 0 ∧
      w.bcb.expected_num_orders ≤ w.bcb.orders_handled) ∨
    (∃ front o, a = some front ∧ w.bcb.orders = some front ∧ load w.mem front = some o ∧
      w.bcb.current_size ≠ 0 ∧ w2.mem = w.mem ∧ w2.bcb.orders = o.next ∧
      w2.bcb.current_size = wrapInt (w.bcb.current_size - 1) ∧
      w2.bcb.orders_handled = wrapInt (w.bcb.orders_handled + 1) ∧
      w2.bcb.next_order_number = w.bcb.next_order_number ∧
      w2.bcb.max_size = w.bcb.max_size ∧
      w2.bcb.expected_num_orders = w.bcb.expected_num_orders) := by
  unfold GetOrder at h
  split at h
  · exact absurd h (by simp)
  · rename_i h1
    split at h
    · rename_i h2
      simp only [Result.returns.injEq, Prod.mk.injEq] at h
      simp only [IsEmpty, Bool.and_eq_true, beq_iff_eq, decide_eq_true_eq] at h2
      exact Or.inl ⟨h.1.symm, h.2.symm, h2.1, h2.2⟩
    · rename_i h2
      split at h
      · exact absurd h (by simp)
      · rename_i front hfront
        split at h
        · exact absurd h (by simp)
        · rename_i o ho
          simp only [Result.returns.injEq, Prod.mk.injEq] at h
          obtain ⟨ha, hw⟩ := h
          subst hw
          refine Or.inr ⟨front, o, ha.symm, hfront, ho, ?_, rfl, rfl, rfl, rfl, rfl, rfl, rfl⟩
          intro hz
          simp only [IsEmpty, Bool.and_eq_true, beq_iff_eq, decide_eq_true_eq, not_and,
            not_lt, not_le] at h1 h2
          have := h1 hz
          have := h2 hz
          omega

/-! ## Counters along a run -/

theorem Counted_start {calloc_ok : Bool} {C E : Int} {bcb : BENSCHILLIBOWL}
    (hopen : OpenRestaurant calloc_ok C E = some bcb) (mem : Memory) :
    Counted C E (Run.start bcb mem) := by
  unfold OpenRestaurant at hopen
  split at hopen
  · exact absurd hopen (by simp)
  · simp only [Option.some.injEq] at hopen
    subst hopen
    constructor <;> simp [Run.start, wrapInt]

theorem step_add_ok {fuel : Nat} {r r2 : Run} {p : Nat} {o : Order}
    (h : step fuel r (.add p o) = .ok r2) :
    ∃ n o2, AddOrder fuel ⟨r.w.bcb, store r.w.mem p o⟩ p = .returns (n, r2.w) ∧
      load r2.w.mem p = some o2 ∧
      r2.submitted = r.submitted ++ [ticket p o2] ∧
      r2.numbers = r.numbers ++ [n] ∧
      r2.fetched = r.fetched ∧
      r2.relinked = (r.relinked ||
        decide (p ∈ (pending r.w.mem fuel r.w.bcb.orders).map Ticket.addr)) := by
  simp only [step] at h
  split at h
  · rename_i n w2 hadd
    split at h
    · exact absurd h (by simp)
    · rename_i o2 ho2
      simp only [Except.ok.injEq] at h
      subst h
      exact ⟨n, o2, hadd, ho2, rfl, rfl, rfl, rfl⟩
  all_goals exact absurd h (by simp)

theorem step_get_ok {fuel : Nat} {r r2 : Run} (h : step fuel r .get = .ok r2) :
    (GetOrder r.w = .returns (none, r2.w) ∧ r2 = { r with w := r2.w }) ∨
    (∃ front o, GetOrder r.w = .returns (some front, r2.w) ∧
      load r2.w.mem front = some o ∧
      r2 = { r with w := r2.w, fetched := r.fetched ++ [ticket front o] }) := by
  simp only [step] at h
  split at h
  · rename_i w2 hget
    simp only [Except.ok.injEq] at h
    subst h
    exact Or.inl ⟨hget, rfl⟩
  · rename_i front w2 hget
    split at h
    · exact absurd h (by simp)
    · rename_i o ho
      simp only [Except.ok.injEq] at h
      subst h
      exact Or.inr ⟨front, o, hget, ho, rfl⟩
  all_goals exact absurd h (by simp)

theorem Counted_step {fuel : Nat} {C E : Int} {r r2 : Run} {c : Call}
    (hmax : C ≤ INT_MAX) (hr : Counted C E r) (h : step fuel r c = .ok r2) :
    Counted C E r2 := by
  have hM : INT_MAX = 2147483647 := rfl
  cases c with
  | add p o =>
    obtain ⟨n, o2, hadd, ho2, hsub, hnum, hfet, -⟩ := step_add_ok h
    obtain ⟨hfull, hn, hsize, hnext, hhand, hmx, hexp, oa, ob, -, hob, htick⟩ :=
      AddOrder_returns hadd
    dsimp only at hn hsize hnext hhand hmx hexp htick
    simp only [IsFull, decide_eq_false_iff_not, not_le] at hfull
    have hlt : r.w.bcb.current_size < C := by rw [← hr.max_eq]; exact hfull
    have hs : r2.w.bcb.current_size = r.w.bcb.current_size + 1 := by
      rw [hsize]
      apply wrapInt_of_range
      · have := hr.size_nonneg
        unfold INT_MIN
        omega
      · omega
    have hord : (ticket p o2).order_number = n := by
      rw [ho2] at hob
      simp only [Option.some.injEq] at hob
      subst hob
      rw [htick, hn]
      rfl
    constructor
    · rw [hmx]; exact hr.max_eq
    · rw [hexp]; exact hr.expected_eq
    · have := hr.size_nonneg
      omega
    · rw [hs]
      have : C ≤ max C 0 := le_max_left _ _
      omega
    · rw [hs, hsub, hfet, hr.size_eq]
      simp only [List.length_append, List.length_singleton, Nat.cast_add, Nat.cast_one]
      omega
    · rw [hnext, hsub, hr.next_eq, wrapInt_succ_wrapInt]
      simp only [List.length_append, List.length_singleton, Nat.cast_add, Nat.cast_one]
    · rw [hfet, hhand]; exact hr.handled_eq
    · rw [hnum, hsub, hn, hr.numbers_eq, hr.next_eq]
      simp only [List.length_append, List.length_singleton, List.range_succ, List.map_append,
        List.map_cons, List.map_nil]
    · rw [hsub, hnum, List.map_append, hr.stamped]
      simp only [List.map_cons, List.map_nil, hord]
  | get =>
    rcases step_get_ok h with ⟨hget, hr2⟩ | ⟨front, o, hget, -, hr2⟩
    · rcases GetOrder_returns hget with ⟨-, hw, -, -⟩ | ⟨front, o, ha, -⟩
      · rw [hw] at hr2
        have : r2 = r := hr2
        rw [this]
        exact hr
      · exact absurd ha (by simp)
    · rcases GetOrder_returns hget with ⟨ha, -⟩ | ⟨f, o1, -, -, -, hne, -, -, hsize, hhand, hnext,
        hmx, hexp⟩
      · exact absurd ha (by simp)
      · have hsub : r2.submitted = r.submitted := by rw [hr2]
        have hnum : r2.numbers = r.numbers := by rw [hr2]
        have hfet : r2.fetched = r.fetched ++ [ticket front o] := by rw [hr2]
        have hpos : 1 ≤ r.w.bcb.current_size := by
          have := hr.size_nonneg
          omega
        have hle := hr.size_le
        have hs : r2.w.bcb.current_size = r.w.bcb.current_size - 1 := by
          rw [hsize]
          apply wrapInt_of_range
          · unfold INT_MIN
            omega
          · have : max C 0 ≤ INT_MAX := max_le hmax (by decide)
            omega
        constructor
        · rw [hmx]; exact hr.max_eq
        · rw [hexp]; exact hr.expected_eq
        · omega
        · omega
        · rw [hs, hsub, hfet, hr.size_eq]
          simp only [List.length_append, List.length_singleton, Nat.cast_add, Nat.cast_one]
          omega
        · rw [hnext, hsub]; exact hr.next_eq
        · rw [hhand, hfet, hr.handled_eq, wrapInt_succ_wrapInt]
          simp only [List.length_append, List.length_singleton, Nat.cast_add, Nat.cast_one]
        · rw [hnum, hsub]; exact hr.numbers_eq
        · rw [hsub, hnum]; exact hr.stamped

theorem exec_cons_ok {fuel : Nat} {c : Call} {cs : List Call} {r r2 : Run}
    (h : exec fuel (c :: cs) r = .ok r2) :
    ∃ r1, step fuel r c = .ok r1 ∧ exec fuel cs r1 = .ok r2 := by
  unfold exec at h
  split at h
  · rename_i r1 h1
    exact ⟨r1, h1, h⟩
  · exact absurd h (by simp)

theorem Counted_exec {fuel : Nat} {C E : Int} (hmax : C ≤ INT_MAX) (calls : List Call) :
    ∀ {r r2 : Run}, Counted C E r → exec fuel calls r = .ok r2 → Counted C E r2 := by
  induction calls with
  | nil =>
    intro r r2 hr h
    simp only [exec, Except.ok.injEq] at h
    rw [← h]
    exact hr
  | cons c cs ih =>
    intro r r2 hr h
    obtain ⟨r1, h1, h2⟩ := exec_cons_ok h
    exact ih (Counted_step hmax hr h1) h2

/-! ## The chain of pending nodes -/

theorem Chain_store {mem : Memory} {p : Nat} (o : Order) :
    ∀ {ts : List Ticket} {head : Option Nat}, Chain mem head ts → p ∉ ts.map Ticket.addr →
      Chain (store mem p o) head ts := by
  intro ts
  induction ts with
  | nil =>
    intro head h _
    exact h
  | cons t ts ih =>
    intro head h hp
    obtain ⟨o1, hhead, hload, ht, hrest⟩ := h
    simp only [List.map_cons, List.mem_cons, not_or] at hp
    refine ⟨o1, hhead, ?_, ht, ih hrest hp.2⟩
    rw [load_store_other _ _ _ _ (Ne.symm hp.1)]
    exact hload

theorem Chain_pending {mem : Memory} :
    ∀ {ts : List Ticket} {head : Option Nat} {n : Nat}, Chain mem head ts → ts.length ≤ n →
      pending mem n head = ts := by
  intro ts
  induction ts with
  | nil =>
    intro head n h _
    have : head = none := h
    subst this
    cases n <;> rfl
  | cons t ts ih =>
    intro head n h hn
    obtain ⟨o1, hhead, hload, ht, hrest⟩ := h
    subst hhead
    cases n with
    | zero => simp at hn
    | succ n =>
      simp only [List.length_cons, Nat.add_le_add_iff_right] at hn
      simp only [pending, hload, ih hrest hn, ← ht]

theorem lastNode_append {mem : Memory} {p : Nat} {o1 : Order} (hp : load mem p = some o1)
    (hnext : o1.next = none) :
    ∀ (ts : List Ticket) (t : Ticket) (head : Option Nat) (fuel : Nat),
      Chain mem head (t :: ts) → ((t :: ts).map Ticket.addr).Nodup →
      p ∉ (t :: ts).map Ticket.addr → ts.length < fuel →
      ∃ l ol, lastNode mem fuel t.addr = .returns l ∧ l ∈ (t :: ts).map Ticket.addr ∧
        load mem l = some ol ∧
        Chain (store mem l { ol with next := some p }) head (t :: ts ++ [ticket p o1]) := by
  intro ts
  induction ts with
  | nil =>
    intro t head fuel hchain _ hfresh hfuel
    obtain ⟨o, hhead, hload, ht, hrest⟩ := hchain
    have hend : o.next = none := hrest
    simp only [List.map_cons, List.map_nil, List.mem_singleton] at hfresh
    cases fuel with
    | zero => simp at hfuel
    | succ f =>
      refine ⟨t.addr, o, ?_, by simp, hload, ?_⟩
      · simp only [lastNode, hload, hend]
      · refine ⟨{ o with next := some p }, hhead, load_store_same _ _ _, ht, ?_⟩
        refine ⟨o1, rfl, ?_, rfl, hnext⟩
        show load (store mem t.addr _) p = some o1
        rw [load_store_other _ _ _ _ hfresh]
        exact hp
  | cons t2 rest ih =>
    intro t head fuel hchain hnodup hfresh hfuel
    obtain ⟨o, hhead, hload, ht, hrest⟩ := hchain
    have hlink : o.next = some t2.addr := by
      obtain ⟨o2, h2, -⟩ := hrest
      exact h2
    have hnodup2 : ((t2 :: rest).map Ticket.addr).Nodup := (List.nodup_cons.mp hnodup).2
    have hnotin : t.addr ∉ (t2 :: rest).map Ticket.addr := (List.nodup_cons.mp hnodup).1
    have hfresh2 : p ∉ (t2 :: rest).map Ticket.addr := by
      intro hmem
      exact hfresh (List.mem_cons_of_mem _ hmem)
    cases fuel with
    | zero => simp at hfuel
    | succ f =>
      simp only [List.length_cons, Nat.add_lt_add_iff_right] at hfuel
      obtain ⟨l, ol, hlast, hl, hlol, hch⟩ := ih t2 o.next f hrest hnodup2 hfresh2 hfuel
      have hne : t.addr ≠ l := by
        intro heq
        rw [← heq] at hl
        exact hnotin hl
      refine ⟨l, ol, ?_, List.mem_cons_of_mem _ hl, hlol, ?_⟩
      · simp only [lastNode, hload, hlink]
        exact hlast
      · refine ⟨o, hhead, ?_, ht, hch⟩
        rw [load_store_other _ _ _ _ hne]
        exact hload

theorem AddOrderToBack_chain {mem : Memory} {p : Nat} {o1 : Order} {fuel : Nat}
    {orders : Option Nat} {ts : List Ticket} (hp : load mem p = some o1)
    (hnext : o1.next = none) (hchain : Chain mem orders ts)
    (hnodup : (ts.map Ticket.addr).Nodup) (hfresh : p ∉ ts.map Ticket.addr)
    (hfuel : ts.length ≤ fuel) :
    ∃ orders2 mem2, AddOrderToBack fuel mem orders p = .returns (orders2, mem2) ∧
      Chain mem2 orders2 (ts ++ [ticket p o1]) := by
  cases ts with
  | nil =>
    have : orders = none := hchain
    subst this
    exact ⟨some p, mem, rfl, o1, rfl, hp, rfl, hnext⟩
  | cons t ts =>
    have hhead : orders = some t.addr := by
      obtain ⟨o, h, -⟩ := hchain
      exact h
    have hlt : ts.length < fuel := by
      simp only [List.length_cons] at hfuel
      omega
    obtain ⟨l, ol, hlast, -, hlol, hch⟩ :=
      lastNode_append hp hnext ts t orders fuel hchain hnodup hfresh hlt
    refine ⟨some t.addr, store mem l { ol with next := some p }, ?_, ?_⟩
    · simp only [AddOrderToBack, hhead, hlast, hlol]
    · rw [← hhead]
      exact hch

/-! ## One call on a well-linked chain -/

theorem Linked_length {C E : Int} {r : Run} {ts : List Ticket} (hc : Counted C E r)
    (hl : Linked r ts) : r.w.bcb.current_size = (ts.length : Int) := by
  have h := congrArg List.length hl.fifo
  rw [List.length_append] at h
  rw [hc.size_eq, ← h]
  push_cast
  omega

theorem step_add_fresh {fuel : Nat} {C E : Int} {r : Run} {ts : List Ticket} (p : Nat)
    (o : Order) (hc : Counted C E r) (hl : Linked r ts) (hfuel : C ≤ (fuel : Int))
    (hfull : IsFull r.w.bcb = false) (hfresh : p ∉ ts.map Ticket.addr) :
    ∃ r2, step fuel r (.add p o) = .ok r2 ∧
      Linked r2 (ts ++ [ticket p { o with order_number := r.w.bcb.next_order_number }]) := by
  have hlen := Linked_length hc hl
  have hlt : ts.length ≤ fuel := by
    simp only [IsFull, decide_eq_false_iff_not, not_le] at hfull
    have := hc.max_eq
    omega
  let o1 : Order := { o with order_number := r.w.bcb.next_order_number, next := none }
  have hp1 : load (store (store r.w.mem p o) p o1) p = some o1 := load_store_same _ _ _
  have hch1 : Chain (store (store r.w.mem p o) p o1) r.w.bcb.orders ts :=
    Chain_store _ (Chain_store _ hl.chain hfresh) hfresh
  obtain ⟨orders2, mem2, hback, hch2⟩ :=
    AddOrderToBack_chain hp1 rfl hch1 hl.nodup hfresh hlt
  have ht := AddOrderToBack_ticket hback p
  rw [hp1] at ht
  cases ho2 : load mem2 p with
  | none =>
    rw [ho2] at ht
    exact absurd ht (by simp)
  | some o2 =>
    rw [ho2] at ht
    simp only [Option.map, Option.some.injEq] at ht
    have hadd : AddOrder fuel ⟨r.w.bcb, store r.w.mem p o⟩ p =
        .returns (o2.order_number,
          { bcb :=
              { r.w.bcb with
                orders := orders2
                next_order_number := wrapInt (r.w.bcb.next_order_number + 1)
                current_size := wrapInt (r.w.bcb.current_size + 1) }
            mem := mem2 }) := by
      simp only [AddOrder, hfull, load_store_same, hback, ho2]
      rfl
    refine ⟨{ w :=
                { bcb :=
                    { r.w.bcb with
                      orders := orders2
                      next_order_number := wrapInt (r.w.bcb.next_order_number + 1)
                      current_size := wrapInt (r.w.bcb.current_size + 1) }
                  mem := mem2 }
              submitted := r.submitted ++ [ticket p o2]
              numbers := r.numbers ++ [o2.order_number]
              fetched := r.fetched
              relinked :=
                r.relinked ||
                  decide (p ∈ (pending r.w.mem fuel r.w.bcb.orders).map Ticket.addr) },
      ?_, ?_⟩
    · simp only [step, hadd, ho2]
    · refine ⟨?_, ?_, ?_⟩
      · exact hch2
      · rw [List.map_append, List.nodup_append]
        refine ⟨hl.nodup, by simp, ?_⟩
        intro a ha hb
        simp only [List.map_cons, List.map_nil, List.mem_singleton] at hb
        subst hb
        exact hfresh ha
      · show r.fetched ++ (ts ++ _) = r.submitted ++ [ticket p o2]
        rw [← List.append_assoc, hl.fifo, ht]
        rfl

theorem step_get_linked (fuel : Nat) {C E : Int} {r : Run} {t : Ticket} {ts : List Ticket}
    (hc : Counted C E r) (hl : Linked r (t :: ts)) :
    ∃ r2, step fuel r .get = .ok r2 ∧ Linked r2 ts ∧ r2.relinked = r.relinked ∧
      r2.fetched = r.fetched ++ [t] ∧ GetOrder r.w = .returns (some t.addr, r2.w) := by
  have hlen := Linked_length hc hl
  have hne : IsEmpty r.w.bcb = false := by
    simp only [IsEmpty, beq_eq_false_iff_ne, ne_eq]
    simp only [List.length_cons] at hlen
    push_cast at hlen
    omega
  obtain ⟨o, hhead, hload, ht, hrest⟩ := hl.chain
  have hget : GetOrder r.w = .returns (some t.addr,
      { r.w with
        bcb :=
          { r.w.bcb with
            orders := o.next
            current_size := wrapInt (r.w.bcb.current_size - 1)
            orders_handled := wrapInt (r.w.bcb.orders_handled + 1) } }) := by
    simp only [GetOrder, hne, hhead, hload, Bool.false_and]
    rfl
  refine ⟨{ r with
            w :=
              { r.w with
                bcb :=
                  { r.w.bcb with
                    orders := o.next
                    current_size := wrapInt (r.w.bcb.current_size - 1)
                    orders_handled := wrapInt (r.w.bcb.orders_handled + 1) } }
            fetched := r.fetched ++ [ticket t.addr o] }, ?_, ?_, ?_, ?_, ?_⟩
  rotate_left
  · exact ⟨hrest, (List.nodup_cons.mp hl.nodup).2, by
      show (r.fetched ++ [ticket t.addr o]) ++ ts = r.submitted
      rw [← ht, List.append_assoc]
      exact hl.fifo⟩
  · rfl
  · show r.fetched ++ [ticket t.addr o] = r.fetched ++ [t]
    rw [← ht]
  · exact hget
  · simp only [step, hget, hload]

/-! ## Runs from a freshly opened restaurant -/

theorem Sound_start {calloc_ok : Bool} {C E : Int} {bcb : BENSCHILLIBOWL}
    (hopen : OpenRestaurant calloc_ok C E = some bcb) (mem : Memory) :
    Sound C E (Run.start bcb mem) := by
  refine ⟨Counted_start hopen mem, fun _ => ⟨[], ?_, by simp, rfl⟩⟩
  unfold OpenRestaurant at hopen
  split at hopen
  · exact absurd hopen (by simp)
  · simp only [Option.some.injEq] at hopen
    subst hopen
    rfl

theorem Sound_step {fuel : Nat} {C E : Int} {r r2 : Run} {c : Call} (hmax : C ≤ INT_MAX)
    (hfuel : C ≤ (fuel : Int)) (hr : Sound C E r) (h : step fuel r c = .ok r2) :
    Sound C E r2 := by
  refine ⟨Counted_step hmax hr.1 h, fun hclean => ?_⟩
  cases c with
  | add p o =>
    obtain ⟨n, o2, hadd, -, -, -, -, hrel⟩ := step_add_ok h
    rw [hclean] at hrel
    have hrel2 := hrel.symm
    simp only [Bool.or_eq_false_iff, decide_eq_false_iff_not] at hrel2
    obtain ⟨ts, hl⟩ := hr.2 hrel2.1
    have hfull := (AddOrder_returns hadd).1
    have hlen := Linked_length hr.1 hl
    have hlt : ts.length ≤ fuel := by
      simp only [IsFull, decide_eq_false_iff_not, not_le] at hfull
      have := hr.1.max_eq
      omega
    have hfresh : p ∉ ts.map Ticket.addr := by
      rw [← Chain_pending hl.chain hlt]
      exact hrel2.2
    obtain ⟨r3, h3, hl3⟩ := step_add_fresh p o hr.1 hl hfuel hfull hfresh
    rw [h] at h3
    simp only [Except.ok.injEq] at h3
    rw [h3]
    exact ⟨_, hl3⟩
  | get =>
    have hrel : r.relinked = r2.relinked := by
      rcases step_get_ok h with ⟨-, h2⟩ | ⟨front, o, -, -, h2⟩ <;> rw [h2]
    obtain ⟨ts, hl⟩ := hr.2 (hrel.trans hclean)
    cases ts with
    | nil =>
      have hlen := Linked_length hr.1 hl
      rcases step_get_ok h with ⟨hget, h2⟩ | ⟨front, o, hget, -, -⟩
      · rcases GetOrder_returns hget with ⟨-, hw, -, -⟩ | ⟨f, o1, ha, -⟩
        · rw [hw] at h2
          have : r2 = r := h2
          rw [this]
          exact ⟨[], hl⟩
        · exact absurd ha (by simp)
      · rcases GetOrder_returns hget with ⟨ha, -⟩ | ⟨f, o1, -, -, -, hne, -⟩
        · exact absurd ha (by simp)
        · exact absurd hlen hne
    | cons t ts =>
      obtain ⟨r3, h3, hl3, -⟩ := step_get_linked fuel hr.1 hl
      rw [h] at h3
      simp only [Except.ok.injEq] at h3
      rw [h3]
      exact ⟨ts, hl3⟩

theorem Sound_exec {fuel : Nat} {C E : Int} (hmax : C ≤ INT_MAX) (hfuel : C ≤ (fuel : Int))
    (calls : List Call) :
    ∀ {r r2 : Run}, Sound C E r → exec fuel calls r = .ok r2 → Sound C E r2 := by
  induction calls with
  | nil =>
    intro r r2 hr h
    simp only [exec, Except.ok.injEq] at h
    rw [← h]
    exact hr
  | cons c cs ih =>
    intro r r2 hr h
    obtain ⟨r1, h1, h2⟩ := exec_cons_ok h
    exact ih (Sound_step hmax hfuel hr h1) h2

theorem exec_adds {fuel : Nat} (calls : List Call) :
    ∀ {r r2 : Run}, exec fuel calls r = .ok r2 →
      r2.submitted.length = r.submitted.length + calls.countP Call.isAdd := by
  induction calls with
  | nil =>
    intro r r2 h
    simp only [exec, Except.ok.injEq] at h
    rw [← h]
    rfl
  | cons c cs ih =>
    intro r r2 h
    obtain ⟨r1, h1, h2⟩ := exec_cons_ok h
    rw [ih h2]
    cases c with
    | add p o =>
      obtain ⟨n, o2, -, -, hsub, -⟩ := step_add_ok h1
      rw [hsub]
      simp [Call.isAdd, List.countP_cons]
      omega
    | get =>
      have : r1.submitted = r.submitted := by
        rcases step_get_ok h1 with ⟨-, h3⟩ | ⟨front, o, -, -, h3⟩ <;> rw [h3]
      rw [this]
      simp [Call.isAdd, List.countP_cons]

/-! ## Calls complete -/

theorem step_get_completes (fuel : Nat) {C E : Int} {r : Run} (hs : Sound C E r)
    (hown : r.relinked = false) :
    (∃ r2, step fuel r .get = .ok r2) ∨ step fuel r .get = .error .blocked := by
  obtain ⟨ts, hl⟩ := hs.2 hown
  cases ts with
  | nil =>
    have hlen := Linked_length hs.1 hl
    have hz : r.w.bcb.current_size = 0 := by simpa using hlen
    by_cases hd : r.w.bcb.orders_handled < r.w.bcb.expected_num_orders
    · right
      simp [step, GetOrder, IsEmpty, hz, hd]
    · left
      have hd2 : r.w.bcb.expected_num_orders ≤ r.w.bcb.orders_handled := not_lt.mp hd
      refine ⟨r, ?_⟩
      simp [step, GetOrder, IsEmpty, hz, hd, hd2]
  | cons t ts =>
    obtain ⟨r2, h2, -⟩ := step_get_linked fuel hs.1 hl
    exact Or.inl ⟨r2, h2⟩

theorem step_add_completes {fuel : Nat} {C E : Int} {r : Run} (hfuel : C ≤ (fuel : Int))
    (hs : Sound C E r) (hown : r.relinked = false) (p : Nat) (o : Order)
    (hfresh : p ∉ (pending r.w.mem fuel r.w.bcb.orders).map Ticket.addr) :
    (∃ r2, step fuel r (.add p o) = .ok r2) ∨ step fuel r (.add p o) = .error .blocked := by
  obtain ⟨ts, hl⟩ := hs.2 hown
  have hlen := Linked_length hs.1 hl
  have hlt : ts.length ≤ fuel := by
    have h1 := hs.1.size_le
    have h2 : max C 0 ≤ (fuel : Int) := max_le hfuel (by omega)
    omega
  rw [Chain_pending hl.chain hlt] at hfresh
  cases hfull : IsFull r.w.bcb with
  | true =>
    right
    have hadd : AddOrder fuel ⟨r.w.bcb, store r.w.mem p o⟩ p = .blocks := by
      simp [AddOrder, hfull]
    simp only [step, hadd]
  | false =>
    obtain ⟨r2, h2, -⟩ := step_add_fresh p o hs.1 hl hfuel hfull hfresh
    exact Or.inl ⟨r2, h2⟩

/-- A run from a freshly opened restaurant stops short of its end only because
a call blocks, unless some `AddOrder` call is handed a node that is still
linked in the queue. -/
theorem crash_needs_relink {fuel : Nat} {C E : Int} (hmax : C ≤ INT_MAX)
    (hfuel : C ≤ (fuel : Int)) (calls : List Call) :
    ∀ {r : Run}, Sound C E r → r.relinked = false → exec fuel calls r = .error .crashed →
      ∃ cs1 p o cs2 r1, calls = cs1 ++ Call.add p o :: cs2 ∧ exec fuel cs1 r = .ok r1 ∧
        r1.relinked = false ∧
        p ∈ (pending r1.w.mem fuel r1.w.bcb.orders).map Ticket.addr := by
  induction calls with
  | nil =>
    intro r _ _ h
    exact absurd h (by simp [exec])
  | cons c cs ih =>
    intro r hs hown h
    have hworse : ∀ p o, c = Call.add p o →
        p ∈ (pending r.w.mem fuel r.w.bcb.orders).map Ticket.addr →
        ∃ cs1 p o cs2 r1, c :: cs = cs1 ++ Call.add p o :: cs2 ∧ exec fuel cs1 r = .ok r1 ∧
          r1.relinked = false ∧
          p ∈ (pending r1.w.mem fuel r1.w.bcb.orders).map Ticket.addr := by
      intro p o hc hp
      exact ⟨[], p, o, cs, r, by rw [hc]; rfl, rfl, hown, hp⟩
    cases hstep : step fuel r c with
    | error e =>
      simp only [exec, hstep, Except.error.injEq] at h
      subst h
      cases c with
      | get =>
        rcases step_get_completes fuel hs hown with ⟨r2, h2⟩ | h2 <;>
          rw [hstep] at h2 <;> exact absurd h2 (by simp)
      | add p o =>
        by_cases hp : p ∈ (pending r.w.mem fuel r.w.bcb.orders).map Ticket.addr
        · exact hworse p o rfl hp
        · rcases step_add_completes hfuel hs hown p o hp with ⟨r2, h2⟩ | h2 <;>
            rw [hstep] at h2 <;> exact absurd h2 (by simp)
    | ok r1 =>
      simp only [exec, hstep] at h
      have hs1 := Sound_step hmax hfuel hs hstep
      cases hrel : r1.relinked with
      | false =>
        obtain ⟨cs1, p, o, cs2, r2, hsplit, hexec, hr2, hp⟩ := ih hs1 hrel h
        refine ⟨c :: cs1, p, o, cs2, r2, by rw [hsplit]; rfl, ?_, hr2, hp⟩
        simp only [exec, hstep]
        exact hexec
      | true =>
        cases c with
        | get =>
          have : r.relinked = r1.relinked := by
            rcases step_get_ok hstep with ⟨-, h2⟩ | ⟨front, o, -, -, h2⟩ <;> rw [h2]
          rw [hown, hrel] at this
          exact absurd this (by simp)
        | add p o =>
          obtain ⟨n, o2, -, -, -, -, -, hr⟩ := step_add_ok hstep
          rw [hrel, hown] at hr
          have hp : p ∈ (pending r.w.mem fuel r.w.bcb.orders).map Ticket.addr := by
            simpa using hr.symm
          exact hworse p o rfl hp

/-! ## Fresh nodes -/

theorem fresh_nodes_exec {fuel : Nat} {C E : Int} (hmax : C ≤ INT_MAX)
    (hfuel : C ≤ (fuel : Int)) (calls : List Call) :
    ∀ {r r2 : Run}, Sound C E r → r.relinked = false →
      (∀ p ∈ addedNodes calls, p ∉ r.submitted.map Ticket.addr) →
      (addedNodes calls).Nodup → exec fuel calls r = .ok r2 → r2.relinked = false := by
  induction calls with
  | nil =>
    intro r r2 _ hown _ _ h
    simp only [exec, Except.ok.injEq] at h
    rw [← h]
    exact hown
  | cons c cs ih =>
    intro r r2 hs hown hnew hnodup h
    obtain ⟨r1, h1, h2⟩ := exec_cons_ok h
    have hs1 := Sound_step hmax hfuel hs h1
    cases c with
    | get =>
      have hrel : r1.relinked = r.relinked := by
        rcases step_get_ok h1 with ⟨-, h3⟩ | ⟨front, o, -, -, h3⟩ <;> rw [h3]
      have hsub : r1.submitted = r.submitted := by
        rcases step_get_ok h1 with ⟨-, h3⟩ | ⟨front, o, -, -, h3⟩ <;> rw [h3]
      refine ih hs1 (hrel.trans hown) ?_ hnodup h2
      rw [hsub]
      exact hnew
    | add p o =>
      obtain ⟨n, o2, hadd, -, hsub, -, -, hrel⟩ := step_add_ok h1
      simp only [addedNodes, List.nodup_cons] at hnodup
      obtain ⟨ts, hl⟩ := hs.2 hown
      have hfull := (AddOrder_returns hadd).1
      have hlen := Linked_length hs.1 hl
      have hlt : ts.length ≤ fuel := by
        simp only [IsFull, decide_eq_false_iff_not, not_le] at hfull
        have := hs.1.max_eq
        omega
      have hp : p ∉ r.submitted.map Ticket.addr := hnew p (by simp [addedNodes])
      have hfresh : p ∉ (pending r.w.mem fuel r.w.bcb.orders).map Ticket.addr := by
        rw [Chain_pending hl.chain hlt]
        intro hmem
        apply hp
        rw [← hl.fifo, List.map_append]
        exact List.mem_append_right _ hmem
      have hown1 : r1.relinked = false := by
        rw [hrel, hown]
        simpa using hfresh
      refine ih hs1 hown1 ?_ hnodup.2 h2
      intro q hq
      rw [hsub, List.map_append]
      simp only [List.map_cons, List.map_nil, List.mem_append, List.mem_singleton, not_or]
      refine ⟨hnew q (by simp [addedNodes, hq]), ?_⟩
      intro hqp
      subst hqp
      exact hnodup.1 hq

/-- A run from a freshly opened restaurant in which every `AddOrder` call gets
a node at an address of its own never hands in a linked node. -/
theorem fresh_nodes_never_relinked {fuel : Nat} {calloc_ok : Bool} {C E : Int}
    {bcb : BENSCHILLIBOWL} {mem : Memory} {calls : List Call} {r : Run}
    (hopen : OpenRestaurant calloc_ok C E = some bcb) (hmax : C ≤ INT_MAX)
    (hfuel : C ≤ (fuel : Int)) (hrun : exec fuel calls (Run.start bcb mem) = .ok r)
    (hfresh : (addedNodes calls).Nodup) : r.relinked = false :=
  fresh_nodes_exec hmax hfuel calls (Sound_start hopen mem) rfl (by simp [Run.start]) hfresh
    hrun

/-! ## The claims -/

/-- C1, amended: FIFO, exactly-once delivery.  Take any run of `AddOrder` and `GetOrder`
calls, one call at a time, from a freshly opened restaurant, every call
returning (none blocks), in which every node handed to `AddOrder` is a node of
its own, not one still linked in the queue.  Then the tickets `GetOrder` has
returned so far, followed by the tickets of the chain that hangs off
`bcb->orders`, are the tickets `AddOrder` has accepted so far, in submission
order.  Once the queue is drained the fetched sequence is the submitted
sequence.  `fuel` bounds the tail walk of `AddOrderToBack`; any bound of at
least the capacity will do. -/
theorem fifo_exactly_once (calloc_ok : Bool) (C E : Int) (bcb : BENSCHILLIBOWL) (mem : Memory)
    (fuel : Nat) (calls : List Call) (r : Run)
    (hopen : OpenRestaurant calloc_ok C E = some bcb)
    (hmax : C ≤ INT_MAX) (hfuel : C ≤ (fuel : Int))
    (hrun : exec fuel calls (Run.start bcb mem) = .ok r)
    (hown : r.relinked = false) :
    (∀ n : Nat, r.w.bcb.current_size ≤ (n : Int) →
      r.fetched ++ pending r.w.mem n r.w.bcb.orders = r.submitted) ∧
    (r.w.bcb.current_size = 0 → r.fetched = r.submitted) := by
  have hs := Sound_exec hmax hfuel calls (Sound_start hopen mem) hrun
  obtain ⟨ts, hl⟩ := hs.2 hown
  have hlen := Linked_length hs.1 hl
  constructor
  · intro n hn
    have hle : ts.length ≤ n := by omega
    rw [Chain_pending hl.chain hle]
    exact hl.fifo
  · intro hz
    have hnil : ts = [] := by
      apply List.eq_nil_of_length_eq_zero
      omega
    have := hl.fifo
    rw [hnil, List.append_nil] at this
    exact this

/-- Scenario A run through `fifo_exactly_once`: A, B and C come out in the
order they went in. -/
theorem fifo_exactly_once_witness :
    exec 2 callsA (Run.start openedA []) = .ok finalA ∧
    finalA.fetched = finalA.submitted :=
  ⟨rfl, (fifo_exactly_once true 2 3 openedA [] 2 callsA finalA rfl (by decide) (by decide)
    rfl rfl).2 rfl⟩

/-- C2: sequence numbers.  In any run from a freshly opened restaurant that
contains `N` calls of `AddOrder`, all returning, among any `GetOrder` calls,
with `N` below the `int` limit: the values `AddOrder` returned are
`1, 2, ..., N` in call order, the `order_number` stored in the submitted nodes
are `1, 2, ..., N` in call order, and `next_order_number` ends as `N + 1`. -/
theorem sequence_numbers (calloc_ok : Bool) (C E : Int) (bcb : BENSCHILLIBOWL) (mem : Memory)
    (fuel : Nat) (calls : List Call) (r : Run) (N : Nat)
    (hopen : OpenRestaurant calloc_ok C E = some bcb)
    (hmax : C ≤ INT_MAX)
    (hrun : exec fuel calls (Run.start bcb mem) = .ok r)
    (hN : calls.countP Call.isAdd = N)
    (hlim : (N : Int) < INT_MAX) :
    r.numbers = (List.range' 1 N).map (fun (k : Nat) => (k : Int)) ∧
    r.submitted.map Ticket.order_number = (List.range' 1 N).map (fun (k : Nat) => (k : Int)) ∧
    r.w.bcb.next_order_number = (N : Int) + 1 := by
  have hc := Counted_exec hmax calls (Counted_start hopen mem) hrun
  have hlen : r.submitted.length = N := by
    rw [exec_adds calls hrun, hN]
    simp [Run.start]
  have hM : INT_MAX = 2147483647 := rfl
  have hnum : r.numbers = (List.range' 1 N).map (fun (k : Nat) => (k : Int)) := by
    rw [hc.numbers_eq, hlen, List.range'_eq_map_range, List.map_map]
    apply List.map_congr_left
    intro i hi
    have hi2 : i < N := List.mem_range.mp hi
    simp only [Function.comp]
    rw [wrapInt_of_range]
    · push_cast
      omega
    · unfold INT_MIN
      omega
    · omega
  refine ⟨hnum, ?_, ?_⟩
  · rw [hc.stamped, hnum]
  · rw [hc.next_eq, hlen]
    apply wrapInt_of_range
    · unfold INT_MIN
      omega
    · omega

/-- Scenario A run through `sequence_numbers`: A, B, C get 1, 2, 3. -/
theorem sequence_numbers_witness :
    finalA.numbers = [1, 2, 3] ∧
    finalA.submitted.map Ticket.order_number = [1, 2, 3] ∧
    finalA.w.bcb.next_order_number = 4 :=
  sequence_numbers true 2 3 openedA [] 2 callsA finalA 3 rfl (by decide) rfl rfl (by decide)

/-- C3: capacity bound.  For every capacity `C > 0` and every state reached
from `OpenRestaurant(C, E)` by `AddOrder` and `GetOrder` calls,
`0 ≤ current_size ≤ C`. -/
theorem capacity_bound (calloc_ok : Bool) (C E : Int) (bcb : BENSCHILLIBOWL) (mem : Memory)
    (fuel : Nat) (calls : List Call) (r : Run)
    (hopen : OpenRestaurant calloc_ok C E = some bcb)
    (hC : 0 < C) (hmax : C ≤ INT_MAX)
    (hrun : exec fuel calls (Run.start bcb mem) = .ok r) :
    0 ≤ r.w.bcb.current_size ∧ r.w.bcb.current_size ≤ C := by
  have hc := Counted_exec hmax calls (Counted_start hopen mem) hrun
  refine ⟨hc.size_nonneg, ?_⟩
  have := hc.size_le
  rwa [max_eq_left (le_of_lt hC)] at this

/-- Scenario A after three calls, run through `capacity_bound`: one order is
pending, of a capacity of two. -/
theorem capacity_bound_witness :
    exec 2 (callsA.take 3) (Run.start openedA []) = .ok midA ∧
    0 ≤ midA.w.bcb.current_size ∧ midA.w.bcb.current_size ≤ 2 :=
  ⟨rfl, capacity_bound true 2 3 openedA [] 2 (callsA.take 3) midA rfl (by decide) (by decide)
    rfl⟩

/-- C4: `CloseRestaurant` closes if and only if `current_size == 0` and
`orders_handled == expected_num_orders`; in every other state an assertion
fails and it aborts. -/
theorem close_iff_quiescent (bcb : BENSCHILLIBOWL) :
    (CloseRestaurant bcb = .closed ↔
      (bcb.current_size = 0 ∧ bcb.orders_handled = bcb.expected_num_orders)) ∧
    (CloseRestaurant bcb = .aborted ↔
      ¬ (bcb.current_size = 0 ∧ bcb.orders_handled = bcb.expected_num_orders)) := by
  unfold CloseRestaurant
  by_cases h1 : bcb.current_size = 0 <;>
    by_cases h2 : bcb.orders_handled = bcb.expected_num_orders <;>
    simp [h1, h2]

/-- C5: termination detection.  In every state with `current_size == 0` and
`orders_handled >= expected_num_orders`, `GetOrder` returns NULL without
waiting and leaves the state as it was, so any number of further `GetOrder`
calls return NULL too; the first `GetOrder` after `OpenRestaurant(5, 0)`
returns NULL. -/
theorem termination_detection (w : World) (hsize : w.bcb.current_size = 0)
    (hdone : w.bcb.expected_num_orders ≤ w.bcb.orders_handled) :
    GetOrder w = .returns (none, w) ∧
    (∀ (fuel n : Nat) (r : Run), r.w = w →
      exec fuel (List.replicate n Call.get) r = .ok r) ∧
    (∀ (calloc_ok : Bool) (bcb : BENSCHILLIBOWL) (mem : Memory),
      OpenRestaurant calloc_ok 5 0 = some bcb →
      GetOrder ⟨bcb, mem⟩ = .returns (none, ⟨bcb, mem⟩)) := by
  have hget : GetOrder w = .returns (none, w) := by
    have hnot : ¬ (w.bcb.orders_handled < w.bcb.expected_num_orders) := not_lt.mpr hdone
    simp [GetOrder, IsEmpty, hsize, hnot, hdone]
  refine ⟨hget, ?_, ?_⟩
  · intro fuel n r hr
    induction n with
    | zero => rfl
    | succ n ih =>
      have hstep : step fuel r .get = .ok r := by
        simp only [step, hr, hget]
        rw [← hr]
      simp only [List.replicate_succ, exec, hstep]
      exact ih
  · intro calloc_ok bcb mem hopen
    unfold OpenRestaurant at hopen
    split at hopen
    · exact absurd hopen (by simp)
    · simp only [Option.some.injEq] at hopen
      subst hopen
      rfl

/-- The end of scenario A run through `termination_detection`: the restaurant
is empty with 3 of 3 orders handled, and a further `GetOrder` returns NULL. -/
theorem termination_detection_witness :
    GetOrder finalA.w = .returns (none, finalA.w) :=
  (termination_detection finalA.w rfl (by decide)).1

/-- C6, as stated, fails: `OpenRestaurant` returns a restaurant for capacity 0
and for a negative expected total. -/
theorem open_accepts_bad_config :
    OpenRestaurant true 0 3 = some ⟨none, 0, 0, 1, 0, 3⟩ ∧
    OpenRestaurant true 5 (-1) = some ⟨none, 0, 5, 1, 0, -1⟩ ∧
    OpenRestaurant true 0 (-1) = some ⟨none, 0, 0, 1, 0, -1⟩ :=
  ⟨rfl, rfl, rfl⟩

/-- C6, amended: `OpenRestaurant` checks neither argument.  It returns NULL
exactly when the allocation fails; otherwise it returns a restaurant bound to
the `max_size` and `expected_num_orders` it was given, whatever their sign. -/
theorem open_fails_only_on_alloc (calloc_ok : Bool) (max_size expected_num_orders : Int) :
    OpenRestaurant calloc_ok max_size expected_num_orders =
      if calloc_ok then some ⟨none, 0, max_size, 1, 0, expected_num_orders⟩ else none := by
  cases calloc_ok <;> rfl

/-- C7, as stated, fails: from `OpenRestaurant(5, 0)`, one `AddOrder` and one
`GetOrder` leave `orders_handled = 1`, above the expected total 0. -/
theorem handled_exceeds_expected :
    OpenRestaurant true 5 0 = some openedB ∧
    exec 1 callsB (Run.start openedB []) = .ok finalB ∧
    ¬ (finalB.w.bcb.orders_handled ≤ 0) :=
  ⟨rfl, rfl, by decide⟩

/-- C7, amended: in every state reached from `OpenRestaurant(C, E)` by a run of
`AddOrder` and `GetOrder` calls that contains at most `E` calls of `AddOrder`,
`orders_handled ≤ E`. -/
theorem handled_le_expected (calloc_ok : Bool) (C E : Int) (bcb : BENSCHILLIBOWL) (mem : Memory)
    (fuel : Nat) (calls : List Call) (r : Run)
    (hopen : OpenRestaurant calloc_ok C E = some bcb)
    (hmax : C ≤ INT_MAX) (hE : E ≤ INT_MAX)
    (hrun : exec fuel calls (Run.start bcb mem) = .ok r)
    (hadds : (calls.countP Call.isAdd : Int) ≤ E) :
    r.w.bcb.orders_handled ≤ E := by
  have hc := Counted_exec hmax calls (Counted_start hopen mem) hrun
  have hlen : r.submitted.length = calls.countP Call.isAdd := by
    rw [exec_adds calls hrun]
    simp [Run.start]
  have h1 := hc.size_nonneg
  have h2 := hc.size_eq
  have hM : INT_MAX = 2147483647 := rfl
  rw [hc.handled_eq, wrapInt_of_range]
  · omega
  · unfold INT_MIN
    omega
  · omega

/-- Scenario A run through `handled_le_expected`: three submits, expected
total three, three handled. -/
theorem handled_le_expected_witness : finalA.w.bcb.orders_handled ≤ 3 :=
  handled_le_expected true 2 3 openedA [] 2 callsA finalA rfl (by decide) (by decide) rfl
    (by decide)

/-- C8: in every state reached from a freshly opened restaurant by `AddOrder`
and `GetOrder` calls, every submitted node being a node of its own (not one
still linked in the queue), `current_size` is the number of nodes chained from
`bcb->orders` to NULL.  So when `current_size` is not 0 the head pointer is
not NULL, it points to a node, and `GetOrder` unlinks and returns that node. -/
theorem size_is_chain_length (calloc_ok : Bool) (C E : Int) (bcb : BENSCHILLIBOWL) (mem : Memory)
    (fuel : Nat) (calls : List Call) (r : Run)
    (hopen : OpenRestaurant calloc_ok C E = some bcb)
    (hmax : C ≤ INT_MAX) (hfuel : C ≤ (fuel : Int))
    (hrun : exec fuel calls (Run.start bcb mem) = .ok r)
    (hown : r.relinked = false) :
    (∀ n : Nat, r.w.bcb.current_size ≤ (n : Int) →
      ((pending r.w.mem n r.w.bcb.orders).length : Int) = r.w.bcb.current_size) ∧
    (r.w.bcb.current_size ≠ 0 →
      ∃ front o w2, r.w.bcb.orders = some front ∧ load r.w.mem front = some o ∧
        GetOrder r.w = .returns (some front, w2)) := by
  have hs := Sound_exec hmax hfuel calls (Sound_start hopen mem) hrun
  obtain ⟨ts, hl⟩ := hs.2 hown
  have hlen := Linked_length hs.1 hl
  constructor
  · intro n hn
    have hle : ts.length ≤ n := by omega
    rw [Chain_pending hl.chain hle, hlen]
  · intro hne
    cases ts with
    | nil => exact absurd hlen hne
    | cons t ts =>
      obtain ⟨r2, -, -, -, -, hget⟩ := step_get_linked fuel hs.1 hl
      obtain ⟨o, hhead, hload, -, -⟩ := hl.chain
      exact ⟨t.addr, o, r2.w, hhead, hload, hget⟩

/-- Scenario A after three calls, run through `size_is_chain_length`: one node
is chained, `current_size` is 1, and the head pointer is not NULL. -/
theorem size_is_chain_length_witness :
    ((pending midA.w.mem 1 midA.w.bcb.orders).length : Int) = midA.w.bcb.current_size ∧
    ∃ front o w2, midA.w.bcb.orders = some front ∧ load midA.w.mem front = some o ∧
      GetOrder midA.w = .returns (some front, w2) :=
  have h := size_is_chain_length true 2 3 openedA [] 2 (callsA.take 3) midA rfl (by decide)
    (by decide) rfl rfl
  ⟨h.1 1 (by decide), h.2 (by decide)⟩

/-- C9: whenever `OpenRestaurant` succeeds, the restaurant it returns has
`next_order_number = 1`, `current_size = 0`, `orders_handled = 0`, an empty
chain, and `max_size` and `expected_num_orders` as given. -/
theorem open_postconditions (calloc_ok : Bool) (max_size expected_num_orders : Int)
    (bcb : BENSCHILLIBOWL)
    (hopen : OpenRestaurant calloc_ok max_size expected_num_orders = some bcb) :
    bcb.next_order_number = 1 ∧ bcb.current_size = 0 ∧ bcb.orders_handled = 0 ∧
    bcb.orders = none ∧ bcb.max_size = max_size ∧
    bcb.expected_num_orders = expected_num_orders := by
  unfold OpenRestaurant at hopen
  split at hopen
  · exact absurd hopen (by simp)
  · simp only [Option.some.injEq] at hopen
    subst hopen
    exact ⟨rfl, rfl, rfl, rfl, rfl, rfl⟩

/-- The witness of `open_postconditions`: `OpenRestaurant(2, 3)`. -/
theorem open_postconditions_witness :
    openedA.next_order_number = 1 ∧ openedA.current_size = 0 ∧ openedA.orders_handled = 0 ∧
    openedA.orders = none ∧ openedA.max_size = 2 ∧ openedA.expected_num_orders = 3 :=
  open_postconditions true 2 3 openedA rfl

/-- A run with as many orders fetched as submitted, and as many submitted as
expected, ends quiescent. -/
theorem quiescent_of_counts {C : Int} {N : Nat} {r : Run}
    (hN : (N : Int) ≤ INT_MAX) (hc : Counted C (N : Int) r)
    (hadds : r.submitted.length = N) (hgets : r.fetched.length = N) :
    r.w.bcb.current_size = 0 ∧ r.w.bcb.orders_handled = (N : Int) ∧
    GetOrder r.w = .returns (none, r.w) ∧ CloseRestaurant r.w.bcb = .closed := by
  have hM : INT_MAX = 2147483647 := rfl
  have hsize : r.w.bcb.current_size = 0 := by
    rw [hc.size_eq, hadds, hgets]
    omega
  have hhand : r.w.bcb.orders_handled = (N : Int) := by
    rw [hc.handled_eq, hgets]
    apply wrapInt_of_range
    · unfold INT_MIN
      omega
    · omega
  have hexp := hc.expected_eq
  refine ⟨hsize, hhand, ?_, ?_⟩
  · simp [GetOrder, IsEmpty, hsize, hhand, hexp]
  · simp [CloseRestaurant, hsize, hhand, hexp]

/-- C10: quiescence under the driver contract.  For every capacity `C` and
every `N`, a run from `OpenRestaurant(C, N)` made of exactly `N` returning
`AddOrder` calls and `GetOrder` calls of which exactly `N` return an order ends
with `current_size == 0` and `orders_handled == N`; there `GetOrder` returns
NULL and `CloseRestaurant` closes. -/
theorem quiescence (calloc_ok : Bool) (C : Int) (N : Nat) (bcb : BENSCHILLIBOWL) (mem : Memory)
    (fuel : Nat) (calls : List Call) (r : Run)
    (hopen : OpenRestaurant calloc_ok C (N : Int) = some bcb)
    (hmax : C ≤ INT_MAX) (hN : (N : Int) ≤ INT_MAX)
    (hrun : exec fuel calls (Run.start bcb mem) = .ok r)
    (hadds : calls.countP Call.isAdd = N)
    (hgets : r.fetched.length = N) :
    r.w.bcb.current_size = 0 ∧ r.w.bcb.orders_handled = (N : Int) ∧
    GetOrder r.w = .returns (none, r.w) ∧ CloseRestaurant r.w.bcb = .closed := by
  have hc := Counted_exec hmax calls (Counted_start hopen mem) hrun
  have hlen : r.submitted.length = N := by
    rw [exec_adds calls hrun, hadds]
    simp [Run.start]
  exact quiescent_of_counts hN hc hlen hgets

/-- Scenario A run through `quiescence`: three submits, three fetches, then
the restaurant is empty with 3 handled, `GetOrder` returns NULL and
`CloseRestaurant` closes. -/
theorem quiescence_witness :
    finalA.w.bcb.current_size = 0 ∧ finalA.w.bcb.orders_handled = 3 ∧
    GetOrder finalA.w = .returns (none, finalA.w) ∧
    CloseRestaurant finalA.w.bcb = .closed :=
  quiescence true 2 3 openedA [] 2 callsA finalA rfl (by decide) (by decide) rfl rfl rfl

/-- The driver's instance of quiescence: with `BENSCHILLIBOWL_SIZE = 100` and
`EXPECTED_NUM_ORDERS = 90 * 3 = 270`, after 270 submits and 270 fetched orders
`CloseRestaurant` closes. -/
theorem main_quiescent (bcb : BENSCHILLIBOWL) (mem : Memory) (fuel : Nat) (calls : List Call)
    (r : Run)
    (hopen : OpenRestaurant true BENSCHILLIBOWL_SIZE EXPECTED_NUM_ORDERS = some bcb)
    (hrun : exec fuel calls (Run.start bcb mem) = .ok r)
    (hadds : calls.countP Call.isAdd = 270)
    (hgets : r.fetched.length = 270) :
    EXPECTED_NUM_ORDERS = 270 ∧ r.w.bcb.orders_handled = 270 ∧
    GetOrder r.w = .returns (none, r.w) ∧ CloseRestaurant r.w.bcb = .closed := by
  have hE : EXPECTED_NUM_ORDERS = ((270 : Nat) : Int) := by decide
  rw [hE] at hopen
  have hsz : BENSCHILLIBOWL_SIZE ≤ INT_MAX := by decide
  have hc := Counted_exec hsz calls
    (Counted_start hopen mem) hrun
  have hlen : r.submitted.length = 270 := by
    rw [exec_adds calls hrun, hadds]
    simp [Run.start]
  have h := quiescent_of_counts (by decide) hc hlen hgets
  exact ⟨by decide, h.2.1, h.2.2.1, h.2.2.2⟩

/-! ## Blocking -/

theorem lastNode_ne_blocks (mem : Memory) :
    ∀ (fuel p : Nat), lastNode mem fuel p ≠ .blocks := by
  intro fuel
  induction fuel with
  | zero =>
    intro p
    simp [lastNode]
  | succ f ih =>
    intro p
    unfold lastNode
    split
    · simp
    · split
      · simp
      · exact ih _

theorem AddOrderToBack_ne_blocks (fuel : Nat) (mem : Memory) (orders : Option Nat)
    (order : Nat) : AddOrderToBack fuel mem orders order ≠ .blocks := by
  unfold AddOrderToBack
  cases orders with
  | none => simp
  | some head =>
    simp only
    split
    · split <;> simp
    · rename_i h
      exact absurd h (lastNode_ne_blocks mem fuel head)
    · simp
    · simp

theorem AddOrder_blocks_iff (fuel : Nat) (w : World) (order : Nat) :
    AddOrder fuel w order = .blocks ↔ w.bcb.max_size ≤ w.bcb.current_size := by
  constructor
  · intro h
    by_contra hlt
    have hfull : IsFull w.bcb = false := by simpa [IsFull] using hlt
    simp only [AddOrder, hfull, Bool.false_eq_true, ↓reduceIte] at h
    split at h
    · exact absurd h (by simp)
    · split at h
      · split at h <;> exact absurd h (by simp)
      · rename_i hb
        exact absurd hb (AddOrderToBack_ne_blocks _ _ _ _)
      · exact absurd h (by simp)
      · exact absurd h (by simp)
  · intro h
    have hfull : IsFull w.bcb = true := by simpa [IsFull] using h
    simp [AddOrder, hfull]

theorem GetOrder_blocks_iff (w : World) :
    GetOrder w = .blocks ↔
      (w.bcb.current_size = 0 ∧ w.bcb.orders_handled < w.bcb.expected_num_orders) := by
  constructor
  · intro h
    by_contra hnot
    have hc : (IsEmpty w.bcb &&
        decide (w.bcb.orders_handled < w.bcb.expected_num_orders)) = false := by
      simpa [IsEmpty] using hnot
    simp only [GetOrder, hc, Bool.false_eq_true, ↓reduceIte] at h
    split at h
    · exact absurd h (by simp)
    · split at h
      · exact absurd h (by simp)
      · split at h <;> exact absurd h (by simp)
  · intro h
    simp [GetOrder, IsEmpty, h.1, h.2]

/-- C11, as stated, fails: in the restaurant `OpenRestaurant(-1, 0)` returns,
`current_size` is 0 and `max_size` is -1, not equal, and `AddOrder` blocks. -/
theorem addorder_blocks_above_capacity :
    OpenRestaurant true (-1) 0 = some openedNeg ∧
    openedNeg.current_size ≠ openedNeg.max_size ∧
    AddOrder 1 ⟨openedNeg, [(10, orderA)]⟩ 10 = .blocks :=
  ⟨rfl, by decide, rfl⟩

/-- C11, amended: in every state `AddOrder` blocks exactly when
`current_size >= max_size`, and `GetOrder` blocks exactly when
`current_size == 0` and `orders_handled < expected_num_orders`; otherwise
neither waits.  In every state reached from `OpenRestaurant` with a positive
capacity, `current_size >= max_size` is `current_size == max_size`.  With
capacity 2, a third submit straight after two submits blocks, and it returns
once one fetch has run. -/
theorem blocking_conditions (fuel : Nat) (w : World) (order : Nat) :
    (AddOrder fuel w order = .blocks ↔ w.bcb.current_size ≥ w.bcb.max_size) ∧
    (GetOrder w = .blocks ↔
      (w.bcb.current_size = 0 ∧ w.bcb.orders_handled < w.bcb.expected_num_orders)) ∧
    (∀ (calloc_ok : Bool) (C E : Int) (bcb : BENSCHILLIBOWL) (mem : Memory)
      (calls : List Call) (r : Run),
      OpenRestaurant calloc_ok C E = some bcb → 0 < C → C ≤ INT_MAX →
      exec fuel calls (Run.start bcb mem) = .ok r →
      (AddOrder fuel r.w order = .blocks ↔ r.w.bcb.current_size = r.w.bcb.max_size)) ∧
    exec 2 callsFull (Run.start openedA []) = .error .blocked ∧
    (∃ r, exec 2 (callsA.take 4) (Run.start openedA []) = .ok r ∧ r.numbers = [1, 2, 3]) := by
  refine ⟨AddOrder_blocks_iff fuel w order, GetOrder_blocks_iff w, ?_, rfl, ?_⟩
  · intro calloc_ok C E bcb mem calls r hopen hC hmax hrun
    have hc := Counted_exec hmax calls (Counted_start hopen mem) hrun
    rw [AddOrder_blocks_iff]
    have h1 := hc.size_le
    have h2 := hc.max_eq
    rw [max_eq_left (le_of_lt hC)] at h1
    constructor
    · intro h
      omega
    · intro h
      omega
  · exact ⟨_, rfl, rfl⟩

/-- Scenario A run through `blocking_conditions`: after A, B and one fetch the
restaurant holds 1 of 2, so `AddOrder` does not block there; at the end
`GetOrder` does not block. -/
theorem blocking_conditions_witness :
    AddOrder 2 midA.w 30 ≠ .blocks ∧ GetOrder finalA.w ≠ .blocks :=
  ⟨fun h => absurd ((blocking_conditions 2 midA.w 30).1.mp h) (by decide),
   fun h => absurd ((blocking_conditions 2 finalA.w 30).2.1.mp h) (by decide)⟩

/-! ## Order numbers along the chain -/

theorem split_numbering {a b : List Int} {F T : Nat}
    (h : a ++ b = (List.range (F + T)).map (fun (i : Nat) => (i : Int) + 1))
    (ha : a.length = F) :
    a = (List.range F).map (fun (i : Nat) => (i : Int) + 1) ∧
    b = (List.range T).map (fun (i : Nat) => ((F : Int) + 1) + (i : Int)) := by
  rw [List.range_add, List.map_append, List.map_map] at h
  have hlen : a.length = ((List.range F).map (fun (i : Nat) => (i : Int) + 1)).length := by
    simp [ha]
  obtain ⟨h1, h2⟩ := List.append_inj h hlen
  refine ⟨h1, ?_⟩
  rw [h2]
  apply List.map_congr_left
  intro i _
  simp only [Function.comp]
  push_cast
  omega

theorem submitted_numbers {C E : Int} {r : Run} (hc : Counted C E r)
    (hlim : (r.submitted.length : Int) < INT_MAX) :
    r.submitted.map Ticket.order_number =
      (List.range r.submitted.length).map (fun (i : Nat) => (i : Int) + 1) := by
  have hM : INT_MAX = 2147483647 := rfl
  rw [hc.stamped, hc.numbers_eq]
  apply List.map_congr_left
  intro i hi
  have hi2 : i < r.submitted.length := List.mem_range.mp hi
  apply wrapInt_of_range
  · unfold INT_MIN
    omega
  · omega

/-- C14, amended: pending numbers are consecutive.  In every state reached from a
freshly opened restaurant by `AddOrder` and `GetOrder` calls, every submitted
node being a node of its own and fewer than `INT_MAX` orders submitted: the
`order_number` fields along the chain from `bcb->orders`, head to tail, are
`orders_handled + 1`, `orders_handled + 2`, and so on, `current_size` of them;
`next_order_number - 1 = orders_handled + current_size`, so the last is
`next_order_number - 1`; and the k-th order `GetOrder` returned carries
`order_number` k. -/
theorem pending_numbers_consecutive (calloc_ok : Bool) (C E : Int) (bcb : BENSCHILLIBOWL)
    (mem : Memory) (fuel : Nat) (calls : List Call) (r : Run)
    (hopen : OpenRestaurant calloc_ok C E = some bcb)
    (hmax : C ≤ INT_MAX) (hfuel : C ≤ (fuel : Int))
    (hrun : exec fuel calls (Run.start bcb mem) = .ok r)
    (hown : r.relinked = false)
    (hlim : (calls.countP Call.isAdd : Int) < INT_MAX) :
    (∀ n : Nat, r.w.bcb.current_size ≤ (n : Int) →
      (pending r.w.mem n r.w.bcb.orders).map Ticket.order_number =
        (List.range r.w.bcb.current_size.toNat).map
          (fun (i : Nat) => (r.w.bcb.orders_handled + 1) + (i : Int))) ∧
    r.w.bcb.next_order_number - 1 = r.w.bcb.orders_handled + r.w.bcb.current_size ∧
    r.fetched.map Ticket.order_number =
      (List.range r.fetched.length).map (fun (i : Nat) => (i : Int) + 1) := by
  have hM : INT_MAX = 2147483647 := rfl
  have hs := Sound_exec hmax hfuel calls (Sound_start hopen mem) hrun
  obtain ⟨ts, hl⟩ := hs.2 hown
  have hc := hs.1
  have hsize := Linked_length hc hl
  have hsub : r.submitted.length = calls.countP Call.isAdd := by
    rw [exec_adds calls hrun]
    simp [Run.start]
  have hlim2 : (r.submitted.length : Int) < INT_MAX := by rw [hsub]; exact hlim
  have hcount : r.submitted.length = r.fetched.length + ts.length := by
    rw [← hl.fifo, List.length_append]
  have hnum := submitted_numbers hc hlim2
  rw [← hl.fifo, List.map_append, List.length_append] at hnum
  obtain ⟨hfet, hpend⟩ := split_numbering hnum (by simp)
  have hhand : r.w.bcb.orders_handled = (r.fetched.length : Int) := by
    rw [hc.handled_eq]
    apply wrapInt_of_range
    · unfold INT_MIN
      omega
    · omega
  have hnext : r.w.bcb.next_order_number = (r.submitted.length : Int) + 1 := by
    rw [hc.next_eq]
    apply wrapInt_of_range
    · unfold INT_MIN
      omega
    · omega
  refine ⟨?_, ?_, hfet⟩
  · intro n hn
    have hle : ts.length ≤ n := by omega
    rw [Chain_pending hl.chain hle, hpend, hsize, hhand]
    simp
  · rw [hnext, hhand, hsize, hcount]
    push_cast
    omega

/-- Scenario A after three calls, run through `pending_numbers_consecutive`: one
order handled, order 2 pending, `next_order_number` 3. -/
theorem pending_numbers_consecutive_witness :
    (pending midA.w.mem 1 midA.w.bcb.orders).map Ticket.order_number = [2] ∧
    midA.w.bcb.next_order_number - 1 = midA.w.bcb.orders_handled + midA.w.bcb.current_size ∧
    midA.fetched.map Ticket.order_number = [1] :=
  have h := pending_numbers_consecutive true 2 3 openedA [] 2 (callsA.take 3) midA rfl
    (by decide) (by decide) rfl rfl (by decide)
  ⟨h.1 1 (by decide), h.2.1, h.2.2⟩

/-! ## The bank account -/

theorem randi_psdd_eq (lo hi : Int) (rnd : Nat) (h : lo ≤ hi) :
    randi_psdd lo hi rnd = randi lo hi rnd := by
  have : hi - lo + 1 > 0 := by omega
  simp [randi, randi_psdd, this]

theorem randi_range (lo hi : Int) (rnd : Nat) (h : lo ≤ hi) :
    lo ≤ randi lo hi rnd ∧ randi lo hi rnd ≤ hi := by
  have hpos : hi - lo + 1 > 0 := by omega
  have h1 := Int.emod_nonneg (rnd : Int) (ne_of_gt hpos)
  have h2 := Int.emod_lt_of_pos (rnd : Int) hpos
  simp only [randi, hpos, if_true]
  constructor <;> omega

theorem dear_old_dad_bounds (b : Int) (rnd_r rnd_amount : Nat) (h0 : 0 ≤ b) :
    0 ≤ dear_old_dad_loop b rnd_r rnd_amount ∧
    (b ≤ 199 → dear_old_dad_loop b rnd_r rnd_amount ≤ 199) ∧
    (b ≤ 225 → dear_old_dad_loop b rnd_r rnd_amount ≤ 225) := by
  have ha := randi_range 0 100 rnd_amount (by decide)
  unfold dear_old_dad_loop
  simp only
  split
  · split
    · rename_i hlt
      split
      · have hw : wrapInt (b + randi 0 100 rnd_amount) = b + randi 0 100 rnd_amount := by
          apply wrapInt_of_range
          · unfold INT_MIN
            omega
          · unfold INT_MAX
            omega
        rw [hw]
        refine ⟨by omega, fun _ => by omega, fun _ => by omega⟩
      · exact ⟨h0, id, id⟩
    · exact ⟨h0, id, id⟩
  · exact ⟨h0, id, id⟩

theorem lovable_mom_bounds (b : Int) (rnd_amount : Nat) (h0 : 0 ≤ b) (h1 : b ≤ 225) :
    0 ≤ lovable_mom_loop b rnd_amount ∧ lovable_mom_loop b rnd_amount ≤ 225 := by
  have ha := randi_range 0 125 rnd_amount (by decide)
  unfold lovable_mom_loop
  simp only
  split
  · have hw : wrapInt (b + randi 0 125 rnd_amount) = b + randi 0 125 rnd_amount := by
      apply wrapInt_of_range
      · unfold INT_MIN
        omega
      · unfold INT_MAX
        omega
    rw [hw]
    constructor <;> omega
  · exact ⟨h0, h1⟩

theorem poor_student_bounds (b : Int) (rnd_r rnd_need : Nat) (h0 : 0 ≤ b) (h1 : b ≤ 225) :
    0 ≤ poor_student_loop b rnd_r rnd_need ∧ poor_student_loop b rnd_r rnd_need ≤ b := by
  have ha := randi_range 0 50 rnd_need (by decide)
  unfold poor_student_loop
  simp only
  split
  · split
    · have hw : wrapInt (b - randi 0 50 rnd_need) = b - randi 0 50 rnd_need := by
        apply wrapInt_of_range
        · unfold INT_MIN
          omega
        · unfold INT_MAX
          omega
      rw [hw]
      constructor <;> omega
    · exact ⟨h0, le_refl _⟩
  · exact ⟨h0, le_refl _⟩

theorem bankRun_bounds (turns : List Turn) :
    ∀ b : Int, 0 ≤ b → b ≤ 225 →
      0 ≤ bankRun turns b ∧ bankRun turns b ≤ 225 ∧
      (b ≤ 199 → turns.all (fun t => !t.isMom) = true → bankRun turns b ≤ 199) := by
  induction turns with
  | nil =>
    intro b h0 h1
    exact ⟨h0, h1, fun h _ => h⟩
  | cons t ts ih =>
    intro b h0 h1
    cases t with
    | dad rnd_r rnd_amount =>
      obtain ⟨d0, d199, d225⟩ := dear_old_dad_bounds b rnd_r rnd_amount h0
      obtain ⟨i0, i225, i199⟩ := ih (dear_old_dad_loop b rnd_r rnd_amount) d0 (d225 h1)
      refine ⟨i0, i225, fun hb hall => i199 (d199 hb) ?_⟩
      simpa [Turn.isMom] using hall
    | mom rnd_amount =>
      obtain ⟨m0, m225⟩ := lovable_mom_bounds b rnd_amount h0 h1
      obtain ⟨i0, i225, -⟩ := ih (lovable_mom_loop b rnd_amount) m0 m225
      refine ⟨i0, i225, fun _ hall => ?_⟩
      simp [Turn.isMom] at hall
    | student rnd_r rnd_need =>
      obtain ⟨s0, sle⟩ := poor_student_bounds b rnd_r rnd_need h0 h1
      obtain ⟨i0, i225, i199⟩ :=
        ih (poor_student_loop b rnd_r rnd_need) s0 (le_trans sle h1)
      refine ⟨i0, i225, fun hb hall => i199 (le_trans sle hb) ?_⟩
      simpa [Turn.isMom] using hall

/-- C15: bank balance bounds.  Whatever critical sections of Dad, Mom and
Student run, in whatever order and with whatever values `rand()` returns,
from `BankAccount = 0`: `0 ≤ BankAccount ≤ 225`; `BankAccount ≤ 199` when no
turn is Mom's, as in `psdd.c`; and a Student's critical section run next
leaves a balance between 0 and the current one, so it never withdraws more
than the account holds. -/
theorem bank_balance_bounds (turns : List Turn) :
    (0 ≤ bankRun turns 0 ∧ bankRun turns 0 ≤ 225) ∧
    (turns.all (fun t => !t.isMom) = true → bankRun turns 0 ≤ 199) ∧
    (∀ rnd_r rnd_need : Nat,
      0 ≤ poor_student_loop (bankRun turns 0) rnd_r rnd_need ∧
      poor_student_loop (bankRun turns 0) rnd_r rnd_need ≤ bankRun turns 0) := by
  obtain ⟨h0, h225, h199⟩ := bankRun_bounds turns 0 (le_refl _) (by decide)
  exact ⟨⟨h0, h225⟩, h199 (by decide),
    fun rnd_r rnd_need => poor_student_bounds _ rnd_r rnd_need h0 h225⟩

/-- A run through `bank_balance_bounds`: Dad brings the account to 98 and then
to 100, Mom adds 125, a student takes 50; the balances are 225 and then 175.
Without Mom's turn the first two turns leave 100, under 199. -/
theorem bank_balance_bounds_witness :
    bankRun (turnsBank.take 3) 0 = 225 ∧ bankRun turnsBank 0 = 175 ∧
    bankRun turnsBank 0 ≤ 225 ∧ bankRun (turnsBank.take 2) 0 ≤ 199 :=
  ⟨rfl, rfl, (bank_balance_bounds turnsBank).1.2,
    (bank_balance_bounds (turnsBank.take 2)).2.1 rfl⟩

/-! ## Lock discipline -/

theorem unguarded_walk (mem : Memory) (rest : List Event) :
    ∀ (fuel p : Nat),
      unguarded true (walk_events mem fuel p ++ rest) = unguarded true rest := by
  intro fuel
  induction fuel with
  | zero =>
    intro p
    rfl
  | succ f ih =>
    intro p
    simp only [walk_events, List.cons_append, unguarded, if_true]
    split
    · rfl
    · split
      · simp [unguarded]
      · exact ih _

theorem AddOrder_unguarded (fuel : Nat) (w : World) (order : Nat) (o : Order)
    (hload : load w.mem order = some o) (hfull : IsFull w.bcb = false) :
    unguarded false (AddOrder_events fuel w order) = [Loc.order_number order] := by
  simp only [AddOrder_events, hfull, hload, Bool.false_eq_true, if_false, List.cons_append,
    List.nil_append, unguarded, if_true, AddOrderToBack_events, List.append_assoc]
  cases w.bcb.orders with
  | none => simp [unguarded]
  | some head =>
    simp only
    rw [unguarded_walk]
    simp [unguarded]

theorem GetOrder_guarded (w : World) : unguarded false (GetOrder_events w) = [] := by
  unfold GetOrder_events empty_test_events
  cases IsEmpty w.bcb <;>
    cases decide (w.bcb.orders_handled < w.bcb.expected_num_orders) <;>
    cases decide (w.bcb.orders_handled ≥ w.bcb.expected_num_orders) <;>
    cases w.bcb.orders <;>
    simp [unguarded]

theorem CloseRestaurant_guarded (bcb : BENSCHILLIBOWL) :
    unguarded false (CloseRestaurant_events bcb) = [] := by
  unfold CloseRestaurant_events
  cases (bcb.current_size != 0) <;>
    cases (bcb.orders_handled != bcb.expected_num_orders) <;>
    simp [unguarded]

/-- C13 fails on `AddOrder`: the first submit of scenario A returns 1 and leaves
node 10 linked in the queue, and the one access it makes without holding the
mutex is the read of `order->order_number` for its return value, after the
unlock.  `GetOrder` and `CloseRestaurant` in the same states make none. -/
theorem addorder_reads_after_unlock :
    AddOrder 2 ⟨openedA, [(10, orderA)]⟩ 10 = .returns (1, afterA) ∧
    (pending afterA.mem 2 afterA.bcb.orders).map Ticket.addr = [10] ∧
    unguarded false (AddOrder_events 2 ⟨openedA, [(10, orderA)]⟩ 10) =
      [Loc.order_number 10] ∧
    unguarded false (GetOrder_events afterA) = [] ∧
    unguarded false (CloseRestaurant_events afterA.bcb) = [] :=
  ⟨rfl, rfl, rfl, rfl, rfl⟩

/-! ## A node submitted twice -/

/-- C1, as stated, fails: from `OpenRestaurant(3, 3)`, two `AddOrder` calls on
the same node both return, and then the chain read from `bcb->orders` holds
the ticket numbered 2 twice while the submitted tickets are numbered 1 and 2;
after two fetches the queue is drained and the fetched tickets, both numbered
2, are not the submitted ones. -/
theorem fifo_fails_on_relinked_node :
    OpenRestaurant true 3 3 = some openedC ∧
    exec 3 callsTwice (Run.start openedC []) = .ok twiceA ∧
    twiceA.fetched ++ pending twiceA.w.mem 2 twiceA.w.bcb.orders ≠ twiceA.submitted ∧
    exec 3 (callsTwice ++ [.get, .get]) (Run.start openedC []) = .ok twiceDrained ∧
    twiceDrained.w.bcb.current_size = 0 ∧
    twiceDrained.fetched ≠ twiceDrained.submitted :=
  ⟨rfl, rfl, by decide, rfl, rfl, by decide⟩

/-- C14, as stated, fails: from `OpenRestaurant(3, 3)`, after two `AddOrder`
calls on the same node `orders_handled` is 0 and `current_size` is 2, but the
`order_number` fields along the chain read 2, 2 and not 1, 2; and the first
order `GetOrder` returns carries `order_number` 2, not 1. -/
theorem numbering_fails_on_relinked_node :
    OpenRestaurant true 3 3 = some openedC ∧
    exec 3 callsTwice (Run.start openedC []) = .ok twiceA ∧
    twiceA.w.bcb.orders_handled = 0 ∧ twiceA.w.bcb.current_size = 2 ∧
    (pending twiceA.w.mem 2 twiceA.w.bcb.orders).map Ticket.order_number = [2, 2] ∧
    exec 3 (callsTwice ++ [.get]) (Run.start openedC []) = .ok twiceFetched ∧
    twiceFetched.fetched.map Ticket.order_number = [2] :=
  ⟨rfl, rfl, rfl, rfl, rfl, rfl, rfl⟩

/-! ## The counter at the `int` limit -/

theorem pingPong_adds (n : Nat) : (pingPong n).countP Call.isAdd = n := by
  induction n with
  | zero => rfl
  | succ n ih =>
    simp only [pingPong, List.countP_cons, Call.isAdd, ih]
    simp

theorem pingPong_runs {E : Int} (n : Nat) :
    ∀ r : Run, Sound 1 E r → r.relinked = false → r.w.bcb.current_size = 0 →
      ∃ r2, exec 1 (pingPong n) r = .ok r2 ∧ r2.relinked = false ∧
        r2.w.bcb.current_size = 0 := by
  have hmax : (1 : Int) ≤ INT_MAX := by decide
  have hfuel : (1 : Int) ≤ ((1 : Nat) : Int) := by decide
  induction n with
  | zero =>
    intro r _ hown hz
    exact ⟨r, rfl, hown, hz⟩
  | succ n ih =>
    intro r hs hown hz
    obtain ⟨ts, hl⟩ := hs.2 hown
    have hlen := Linked_length hs.1 hl
    have hnil : ts = [] := by
      apply List.eq_nil_of_length_eq_zero
      omega
    subst hnil
    have hfull : IsFull r.w.bcb = false := by
      have := hs.1.max_eq
      simp only [IsFull, decide_eq_false_iff_not, not_le]
      omega
    obtain ⟨r1, h1, hl1⟩ := step_add_fresh 10 orderA hs.1 hl hfuel hfull (by simp)
    have hs1 := Sound_step hmax hfuel hs h1
    have hown1 : r1.relinked = false := by
      obtain ⟨_, _, -, -, -, -, -, hrel⟩ := step_add_ok h1
      rw [hrel, hown, Chain_pending hl.chain (Nat.zero_le 1)]
      rfl
    obtain ⟨r2, h2, hl2, hrel2, -, -⟩ := step_get_linked 1 hs1.1 hl1
    have hs2 := Sound_step hmax hfuel hs1 h2
    have hz2 : r2.w.bcb.current_size = 0 := by
      rw [Linked_length hs2.1 hl2]
      rfl
    obtain ⟨r3, h3, hown3, hz3⟩ := ih r2 hs2 (hrel2.trans hown1) hz2
    refine ⟨r3, ?_, hown3, hz3⟩
    simp only [pingPong, exec, h1, h2]
    exact h3

/-- Why C14 needs fewer than `INT_MAX` submits: after 2147483647 rounds of one
submit and one fetch, no node ever handed in while linked, `orders_handled` is
2147483647, the queue is empty, and `next_order_number` has wrapped round, so
`next_order_number - 1` is not `orders_handled + current_size`. -/
theorem numbering_wraps_at_int_limit :
    ∃ r, exec 1 (pingPong 2147483647) (Run.start openedOne []) = .ok r ∧
      r.relinked = false ∧
      r.w.bcb.next_order_number - 1 ≠ r.w.bcb.orders_handled + r.w.bcb.current_size := by
  have hopen : OpenRestaurant true 1 0 = some openedOne := rfl
  obtain ⟨r, hrun, hown, hz⟩ :=
    pingPong_runs 2147483647 (Run.start openedOne []) (Sound_start hopen []) rfl rfl
  refine ⟨r, hrun, hown, ?_⟩
  have hc := Counted_exec (by decide) (pingPong 2147483647) (Counted_start hopen []) hrun
  have hsub : r.submitted.length = 2147483647 := by
    rw [exec_adds (pingPong 2147483647) hrun, pingPong_adds]
    rfl
  have hsize := hc.size_eq
  have hnext := hc.next_eq
  have hhand := hc.handled_eq
  rw [hsub] at hsize hnext
  rw [hz] at hsize
  have hfet : (r.fetched.length : Int) = 2147483647 := by
    push_cast at hsize
    omega
  rw [hfet] at hhand
  rw [hnext, hhand, hz]
  decide

end BensChilliBowl
